import Mathlib

set_option maxRecDepth 100000

/-!
Verification of the signed resume-decision-token protocol of
`backend/src/worker.js`.

The development shallowly embeds the worker's pure logic:

* bytes are `List Nat` with every entry `< 256`;
* the platform primitives `btoa` / `atob` are modelled concretely
  (standard base64 with forgiving decoding, as specified for the web);
* `TextEncoder` / `TextDecoder` are modelled by a concrete UTF-8
  codec on Lean `Char` (Unicode scalar values);
* `crypto.subtle`'s HMAC-SHA256 is kept abstract: every definition and
  theorem is parameterised by an arbitrary tag function `hmacSha256`,
  so the theorems hold for the real HMAC in particular;
* `JSON.stringify` / `JSON.parse` are modelled for the flat-object
  fragment the worker exchanges (string, integer and null fields);
* the fallible platform calls (KV store, R2 object storage, the email
  transport) are inputs of an explicit environment record, and thrown
  exceptions are `Except.error` values caught at the handler boundary
  exactly where the source's `try/catch` sits.
-/

/-! ## Characters that the token scanner treats specially -/

def quoteChar : Char := '"'
def backslashChar : Char := '\\'
def lbraceChar : Char := '\x7b'
def rbraceChar : Char := '\x7d'
def apostropheChar : Char := Char.ofNat 39

/-! ## Base64 alphabet -/

def b64AlphabetList : List Char :=
  "ABCDEFGHIJKLMNOPQRSTUVWXYZabcdefghijklmnopqrstuvwxyz0123456789+/".data

/-- The character standing for a 6-bit value in standard base64. -/
def b64Char (n : Nat) : Char := b64AlphabetList.getD n 'A'

def b64ValAux (c : Char) : List Char → Nat → Option Nat
  | [], _ => none
  | d :: rest, i => if d = c then some i else b64ValAux c rest (i + 1)

/-- The 6-bit value of a standard base64 character, `none` outside the alphabet. -/
def b64Val (c : Char) : Option Nat := b64ValAux c b64AlphabetList 0

def isB64Char (c : Char) : Bool := (b64Val c).isSome

def b64ValD (c : Char) : Nat := (b64Val c).getD 0

/-! ## btoa (standard base64 encoding of a byte list) -/

/-- Base64 characters of a byte list, without padding. -/
def b64chars : List Nat → List Char
  | [] => []
  | [a] => [b64Char (a / 4), b64Char (a % 4 * 16)]
  | [a, b] => [b64Char (a / 4), b64Char (a % 4 * 16 + b / 16), b64Char (b % 16 * 4)]
  | a :: b :: c :: rest =>
      b64Char (a / 4) :: b64Char (a % 4 * 16 + b / 16) ::
        b64Char (b % 16 * 4 + c / 64) :: b64Char (c % 64) :: b64chars rest

/-- Padding characters appended by standard base64. -/
def b64padChars : List Nat → List Char
  | [] => []
  | [_] => ['=', '=']
  | [_, _] => ['=']
  | _ :: _ :: _ :: rest => b64padChars rest

/-- The platform `btoa`, on the byte values of its binary-string argument. -/
def btoa (bs : List Nat) : List Char := b64chars bs ++ b64padChars bs

/-! ## atob (forgiving base64 decoding) -/

def isAsciiWs (c : Char) : Bool :=
  c = ' ' || c = '\t' || c = '\n' || c = '\r' || c = Char.ofNat 12

/-- Strip at most two trailing `'='` characters. -/
def stripUpTo2Eq (l : List Char) : List Char :=
  match l.reverse with
  | c1 :: c2 :: r =>
      if c1 = '=' then (if c2 = '=' then r.reverse else (c2 :: r).reverse) else l
  | [c1] => if c1 = '=' then ([] : List Char) else l
  | [] => l

/-- Regroup 6-bit values into bytes, discarding leftover bits. -/
def b64Decode6 : List Nat → List Nat
  | [] => []
  | [_] => []
  | [a, b] => [a * 4 + b / 16]
  | [a, b, c] => [a * 4 + b / 16, b % 16 * 16 + c / 4]
  | a :: b :: c :: d :: rest =>
      (a * 4 + b / 16) :: (b % 16 * 16 + c / 4) :: (c % 4 * 64 + d) :: b64Decode6 rest

/-- The platform `atob` (the forgiving-base64 algorithm); `none` models the
`InvalidCharacterError` throw. -/
def atobList (l : List Char) : Option (List Nat) :=
  let data := l.filter (fun c => !isAsciiWs c)
  let data := if data.length % 4 = 0 then stripUpTo2Eq data else data
  if data.length % 4 = 1 then none
  else if data.all isB64Char then some (b64Decode6 (data.map b64ValD))
  else none

/-! ## The worker's base64url wrappers (`base64UrlEncode` / `base64UrlDecode`) -/

def plusSlashToDashUnderscore (c : Char) : Char :=
  if c = '+' then '-' else if c = '/' then '_' else c

def dashUnderscoreToPlusSlash (c : Char) : Char :=
  if c = '-' then '+' else if c = '_' then '/' else c

/-- Removal by the regex matching trailing equals signs: drop the maximal run. -/
def stripTrailingEq (l : List Char) : List Char :=
  ((l.reverse.dropWhile (fun c => c = '=')).reverse)

/-- Function `base64UrlEncode` from the source: `btoa`, then `+/` replaced by `-_`,
then trailing `=` stripped. -/
def base64UrlEncode (bs : List Nat) : String :=
  String.mk (stripTrailingEq ((btoa bs).map plusSlashToDashUnderscore))

/-- The padding slice computed by the source from the segment length. -/
def padFor (n : Nat) : List Char := List.replicate (3 - (n + 3) % 4) '='

/-- Function `base64UrlDecode` from the source: `-_` replaced back by `+/`, padding
restored, then `atob`; `none` models the `atob` throw. -/
def base64UrlDecode (s : String) : Option (List Nat) :=
  atobList ((s.data.map dashUnderscoreToPlusSlash) ++ padFor s.length)

/-! ### Base64 round-trip -/

theorem b64Val_b64Char {v : Nat} (h : v < 64) : b64Val (b64Char v) = some v := by
  have : ∀ w < 64, b64Val (b64Char w) = some w := by decide
  exact this v h

theorem b64ValD_b64Char {v : Nat} (h : v < 64) : b64ValD (b64Char v) = v := by
  simp [b64ValD, b64Val_b64Char h]

theorem isB64Char_b64Char (v : Nat) : isB64Char (b64Char v) = true := by
  by_cases h : v < 64
  · simp [isB64Char, b64Val_b64Char h]
  · have hlen : b64AlphabetList.length ≤ v := by
      have : b64AlphabetList.length = 64 := by decide
      omega
    have : b64Char v = 'A' := by
      simp [b64Char, List.getD, List.getElem?_eq_none hlen]
    rw [this]
    decide

theorem b64chars_mem_isB64 {l : List Nat} {c : Char} (h : c ∈ b64chars l) :
    isB64Char c = true := by
  induction l using b64chars.induct with
  | case1 => simp [b64chars] at h
  | case2 a =>
    simp only [b64chars, List.mem_cons, List.not_mem_nil, or_false] at h
    rcases h with rfl | rfl <;> exact isB64Char_b64Char _
  | case3 a b =>
    simp only [b64chars, List.mem_cons, List.not_mem_nil, or_false] at h
    rcases h with rfl | rfl | rfl <;> exact isB64Char_b64Char _
  | case4 a b cc rest ih =>
    simp only [b64chars, List.mem_cons] at h
    rcases h with rfl | rfl | rfl | rfl | h
    · exact isB64Char_b64Char _
    · exact isB64Char_b64Char _
    · exact isB64Char_b64Char _
    · exact isB64Char_b64Char _
    · exact ih h

theorem b64ValAux_isSome_mem {c : Char} :
    ∀ {l : List Char} {i : Nat}, (b64ValAux c l i).isSome = true → c ∈ l := by
  intro l
  induction l with
  | nil => intro i h; simp [b64ValAux] at h
  | cons d rest ih =>
    intro i h
    by_cases hd : d = c
    · simp [hd]
    · simp only [b64ValAux, if_neg hd] at h
      exact List.mem_cons_of_mem _ (ih h)

theorem isB64Char_mem {c : Char} (h : isB64Char c = true) : c ∈ b64AlphabetList :=
  b64ValAux_isSome_mem (by simpa [isB64Char, b64Val] using h)

theorem b64_char_props {c : Char} (h : isB64Char c = true) :
    c ≠ '=' ∧ c ≠ '.' ∧ isAsciiWs c = false ∧
      dashUnderscoreToPlusSlash (plusSlashToDashUnderscore c) = c := by
  have hall : ∀ d ∈ b64AlphabetList,
      d ≠ '=' ∧ d ≠ '.' ∧ isAsciiWs d = false ∧
        dashUnderscoreToPlusSlash (plusSlashToDashUnderscore d) = d := by decide
  exact hall c (isB64Char_mem h)

theorem urlmapped_props {c : Char} (h : isB64Char c = true) :
    (plusSlashToDashUnderscore c ≠ '=') ∧ (plusSlashToDashUnderscore c ≠ '.') := by
  have hall : ∀ d ∈ b64AlphabetList,
      (plusSlashToDashUnderscore d ≠ '=') ∧ (plusSlashToDashUnderscore d ≠ '.') := by decide
  exact hall c (isB64Char_mem h)

theorem b64Decode6_b64chars {l : List Nat} (h : ∀ b ∈ l, b < 256) :
    b64Decode6 ((b64chars l).map b64ValD) = l := by
  induction l using b64chars.induct with
  | case1 => simp [b64chars, b64Decode6]
  | case2 a =>
    have ha : a < 256 := h a (by simp)
    rw [b64chars]
    simp only [List.map_cons, List.map_nil,
      b64ValD_b64Char (by omega : a / 4 < 64),
      b64ValD_b64Char (by omega : a % 4 * 16 < 64), b64Decode6]
    congr 1
    omega
  | case3 a b =>
    have ha : a < 256 := h a (by simp)
    have hb : b < 256 := h b (by simp)
    rw [b64chars]
    simp only [List.map_cons, List.map_nil,
      b64ValD_b64Char (by omega : a / 4 < 64),
      b64ValD_b64Char (by omega : a % 4 * 16 + b / 16 < 64),
      b64ValD_b64Char (by omega : b % 16 * 4 < 64), b64Decode6]
    congr 1
    · omega
    · congr 1
      omega
  | case4 a b c rest ih =>
    have ha : a < 256 := h a (by simp)
    have hb : b < 256 := h b (by simp)
    have hc : c < 256 := h c (by simp)
    have hrest : ∀ x ∈ rest, x < 256 := fun x hx => h x (by simp [hx])
    rw [b64chars]
    simp only [List.map_cons,
      b64ValD_b64Char (by omega : a / 4 < 64),
      b64ValD_b64Char (by omega : a % 4 * 16 + b / 16 < 64),
      b64ValD_b64Char (by omega : b % 16 * 4 + c / 64 < 64),
      b64ValD_b64Char (by omega : c % 64 < 64)]
    rw [b64Decode6, ih hrest]
    congr 1
    · omega
    · congr 1
      · omega
      · congr 1
        omega

theorem padFor_b64chars (l : List Nat) :
    padFor (b64chars l).length = b64padChars l := by
  induction l using b64chars.induct with
  | case1 => simp [b64chars, b64padChars, padFor]
  | case2 a => simp [b64chars, b64padChars, padFor, List.replicate]
  | case3 a b => simp [b64chars, b64padChars, padFor, List.replicate]
  | case4 a b c rest ih =>
    have hlen : (b64chars (a :: b :: c :: rest)).length = 4 + (b64chars rest).length := by
      simp [b64chars]
      omega
    rw [hlen, b64padChars]
    rw [← ih]
    simp [padFor]
    congr 1
    omega

theorem b64chars_len_mod (l : List Nat) :
    (b64chars l).length % 4 = 0 ∨ (b64chars l).length % 4 = 2 ∨
      (b64chars l).length % 4 = 3 := by
  induction l using b64chars.induct with
  | case1 => simp [b64chars]
  | case2 a => simp [b64chars]
  | case3 a b => simp [b64chars]
  | case4 a b c rest ih =>
    have hlen : (b64chars (a :: b :: c :: rest)).length = 4 + (b64chars rest).length := by
      simp [b64chars]
      omega
    rw [hlen]
    omega

theorem dropWhile_eq_self_of_head {p : Char → Bool} {ys : List Char}
    (h : ∀ y ∈ ys, p y = false) : ys.dropWhile p = ys := by
  cases ys with
  | nil => rfl
  | cons y t => simp [List.dropWhile_cons, h y (by simp)]

theorem stripTrailingEq_append {xs : List Char} (hx : ∀ c ∈ xs, c ≠ '=') (k : Nat) :
    stripTrailingEq (xs ++ List.replicate k '=') = xs := by
  unfold stripTrailingEq
  rw [List.reverse_append, List.reverse_replicate]
  have hdrop : ∀ m : Nat, (List.replicate m '=' ++ xs.reverse).dropWhile (fun c => c = '=') =
      xs.reverse.dropWhile (fun c => c = '=') := by
    intro m
    induction m with
    | zero => simp
    | succ n ih => simpa [List.replicate_succ, List.dropWhile_cons] using ih
  rw [hdrop, dropWhile_eq_self_of_head, List.reverse_reverse]
  intro y hy
  have : y ∈ xs := List.mem_reverse.mp hy
  simpa using hx y this

theorem stripUpTo2Eq_append {xs : List Char} (hx : ∀ c ∈ xs, c ≠ '=') {k : Nat}
    (hk : k ≤ 2) : stripUpTo2Eq (xs ++ List.replicate k '=') = xs := by
  interval_cases k
  · show stripUpTo2Eq (xs ++ []) = xs
    rw [List.append_nil]
    unfold stripUpTo2Eq
    cases hxs : xs.reverse with
    | nil => simp
    | cons y t =>
      have hy : y ∈ xs := List.mem_reverse.mp (by simp [hxs])
      have hyne : y ≠ '=' := hx y hy
      cases t with
      | nil => simp [hyne]
      | cons z t2 => simp [hyne]
  · show stripUpTo2Eq (xs ++ ['=']) = xs
    unfold stripUpTo2Eq
    rw [List.reverse_append]
    simp only [List.reverse_cons, List.reverse_nil, List.nil_append, List.singleton_append]
    cases hxs : xs.reverse with
    | nil =>
      have hxnil : xs = [] := by simpa using congrArg List.reverse hxs
      simp [hxnil]
    | cons y t =>
      have hy : y ∈ xs := List.mem_reverse.mp (by simp [hxs])
      have hyne : y ≠ '=' := hx y hy
      have hxeq : xs = t.reverse ++ [y] := by
        have := congrArg List.reverse hxs
        simpa using this
      simp [hyne, hxeq]
  · show stripUpTo2Eq (xs ++ ['=', '=']) = xs
    unfold stripUpTo2Eq
    rw [List.reverse_append]
    simp only [List.reverse_cons, List.reverse_nil, List.nil_append, List.cons_append,
      List.singleton_append]
    simp [List.reverse_reverse]

theorem map_url_b64chars_ne_eq {bs : List Nat} :
    ∀ c ∈ (b64chars bs).map plusSlashToDashUnderscore, c ≠ '=' := by
  intro c hc
  rcases List.mem_map.mp hc with ⟨d, hd, rfl⟩
  exact (urlmapped_props (b64chars_mem_isB64 hd)).1

theorem b64padChars_shape (bs : List Nat) :
    b64padChars bs = List.replicate (3 - ((b64chars bs).length + 3) % 4) '=' := by
  rw [← padFor_b64chars]
  rfl

theorem base64UrlEncode_data (bs : List Nat) :
    (base64UrlEncode bs).data = (b64chars bs).map plusSlashToDashUnderscore := by
  show stripTrailingEq ((btoa bs).map plusSlashToDashUnderscore) = _
  unfold btoa
  rw [List.map_append, b64padChars_shape bs, List.map_replicate]
  have hrep : plusSlashToDashUnderscore '=' = '=' := by decide
  rw [hrep, stripTrailingEq_append map_url_b64chars_ne_eq]

theorem atob_btoa {bs : List Nat} (h : ∀ b ∈ bs, b < 256) :
    atobList (b64chars bs ++ b64padChars bs) = some bs := by
  have hmod := b64chars_len_mod bs
  set n := (b64chars bs).length with hn
  have hpad := b64padChars_shape bs
  set m := 3 - (n + 3) % 4 with hm
  have hm2 : m ≤ 2 := by omega
  have hfil : (b64chars bs ++ b64padChars bs).filter (fun c => !isAsciiWs c) =
      b64chars bs ++ b64padChars bs := by
    rw [List.filter_eq_self]
    intro c hc
    rcases List.mem_append.mp hc with hc | hc
    · simp [(b64_char_props (b64chars_mem_isB64 hc)).2.2.1]
    · rw [hpad] at hc
      have : c = '=' := List.eq_of_mem_replicate hc
      subst this
      decide
  have hlen : (b64chars bs ++ b64padChars bs).length % 4 = 0 := by
    rw [List.length_append, hpad, List.length_replicate]
    omega
  have hstrip : stripUpTo2Eq (b64chars bs ++ b64padChars bs) = b64chars bs := by
    rw [hpad]
    exact stripUpTo2Eq_append (fun c hc => (b64_char_props (b64chars_mem_isB64 hc)).1) hm2
  have hne1 : ¬ (b64chars bs).length % 4 = 1 := by omega
  have hall : (b64chars bs).all isB64Char = true :=
    List.all_eq_true.mpr (fun c hc => b64chars_mem_isB64 hc)
  unfold atobList
  simp only [hfil, hlen, if_pos rfl, hstrip, reduceIte, ← hn, if_neg hne1, hall,
    if_pos rfl, b64Decode6_b64chars h]

theorem base64Url_roundtrip {bs : List Nat} (h : ∀ b ∈ bs, b < 256) :
    base64UrlDecode (base64UrlEncode bs) = some bs := by
  unfold base64UrlDecode
  have hlen : (base64UrlEncode bs).length = (b64chars bs).length := by
    show (base64UrlEncode bs).data.length = _
    rw [base64UrlEncode_data, List.length_map]
  rw [base64UrlEncode_data, hlen, List.map_map]
  have hmapid : List.map (dashUnderscoreToPlusSlash ∘ plusSlashToDashUnderscore)
      (b64chars bs) = b64chars bs := by
    have h2 : ∀ d ∈ b64chars bs,
        (dashUnderscoreToPlusSlash ∘ plusSlashToDashUnderscore) d = id d := by
      intro d hd
      exact (b64_char_props (b64chars_mem_isB64 hd)).2.2.2
    rw [List.map_congr_left h2, List.map_id]
  rw [hmapid]
  show atobList (b64chars bs ++ padFor (b64chars bs).length) = some bs
  rw [padFor_b64chars]
  exact atob_btoa h

/-! ## UTF-8 (the platform TextEncoder / TextDecoder pair) -/

theorem charOfNatToNat (c : Char) : Char.ofNat c.toNat = c := by
  rcases c with ⟨v, h⟩
  have hv : (Char.mk v h).toNat.isValidChar := by
    simpa [Char.toNat] using h
  simp [Char.ofNat, hv]
  apply Char.ext
  simp [Char.ofNatAux, Char.toNat, UInt32.ofNat]
  congr 1

/-- UTF-8 bytes of one Unicode scalar value. -/
def utf8EncodeChar (c : Char) : List Nat :=
  if c.toNat < 0x80 then [c.toNat]
  else if c.toNat < 0x800 then [0xC0 + c.toNat / 64, 0x80 + c.toNat % 64]
  else if c.toNat < 0x10000 then
    [0xE0 + c.toNat / 4096, 0x80 + c.toNat / 64 % 64, 0x80 + c.toNat % 64]
  else
    [0xF0 + c.toNat / 262144, 0x80 + c.toNat / 4096 % 64, 0x80 + c.toNat / 64 % 64,
      0x80 + c.toNat % 64]

def utf8EncodeList : List Char → List Nat
  | [] => []
  | c :: cs => utf8EncodeChar c ++ utf8EncodeList cs

/-- The platform text encoder applied by the source's `toUtf8`. -/
def toUtf8 (s : String) : List Nat := utf8EncodeList s.data

def isContByte (b : Nat) : Bool := 0x80 ≤ b && b < 0xC0

def replacementChar : Char := Char.ofNat 0xFFFD

/-- One decoding step of `TextDecoder`: the char decoded at the head byte and
the remaining bytes. -/
def utf8Step (b : Nat) (rest : List Nat) : Char × List Nat :=
  if b < 0x80 then (Char.ofNat b, rest)
  else if b < 0xC0 then (replacementChar, rest)
  else if b < 0xE0 then
    match rest with
    | b2 :: rest2 =>
      if isContByte b2 then (Char.ofNat ((b - 0xC0) * 64 + (b2 - 0x80)), rest2)
      else (replacementChar, b2 :: rest2)
    | [] => (replacementChar, [])
  else if b < 0xF0 then
    match rest with
    | b2 :: b3 :: rest2 =>
      if isContByte b2 && isContByte b3 then
        (Char.ofNat ((b - 0xE0) * 4096 + (b2 - 0x80) * 64 + (b3 - 0x80)), rest2)
      else (replacementChar, b2 :: b3 :: rest2)
    | other => (replacementChar, other)
  else
    match rest with
    | b2 :: b3 :: b4 :: rest2 =>
      if isContByte b2 && isContByte b3 && isContByte b4 then
        (Char.ofNat ((b - 0xF0) * 262144 + (b2 - 0x80) * 4096 + (b3 - 0x80) * 64 +
          (b4 - 0x80)), rest2)
      else (replacementChar, b2 :: b3 :: b4 :: rest2)
    | other => (replacementChar, other)

theorem utf8Step_snd_le (b : Nat) (rest : List Nat) :
    (utf8Step b rest).2.length ≤ rest.length := by
  unfold utf8Step
  repeat' split
  all_goals simp only [List.length_cons]
  all_goals omega

def utf8DecodeAux : Nat → List Nat → List Char
  | 0, _ => []
  | _ + 1, [] => []
  | fuel + 1, b :: rest => (utf8Step b rest).1 :: utf8DecodeAux fuel (utf8Step b rest).2

/-- The platform text decoder: UTF-8 decoding with replacement on
malformed sequences. -/
def utf8DecodeList (l : List Nat) : List Char := utf8DecodeAux (l.length + 1) l

theorem utf8DecodeAux_irrel :
    ∀ f1 : Nat, ∀ (l : List Nat) (f2 : Nat), l.length < f1 → l.length < f2 →
      utf8DecodeAux f1 l = utf8DecodeAux f2 l := by
  intro f1
  induction f1 with
  | zero => intro l f2 h1 _; omega
  | succ f1 ih =>
    intro l f2 h1 h2
    cases f2 with
    | zero => omega
    | succ f2 =>
      cases l with
      | nil => rfl
      | cons b rest =>
        show (utf8Step b rest).1 :: utf8DecodeAux f1 (utf8Step b rest).2 =
          (utf8Step b rest).1 :: utf8DecodeAux f2 (utf8Step b rest).2
        have hle := utf8Step_snd_le b rest
        simp only [List.length_cons] at h1 h2
        rw [ih (utf8Step b rest).2 f2 (by omega) (by omega)]

theorem utf8DecodeList_cons (b : Nat) (rest : List Nat) :
    utf8DecodeList (b :: rest) =
      (utf8Step b rest).1 :: utf8DecodeList (utf8Step b rest).2 := by
  show utf8DecodeAux ((b :: rest).length + 1) (b :: rest) = _
  have hle := utf8Step_snd_le b rest
  show (utf8Step b rest).1 :: utf8DecodeAux (rest.length + 1) (utf8Step b rest).2 = _
  rw [utf8DecodeAux_irrel (rest.length + 1) (utf8Step b rest).2
    ((utf8Step b rest).2.length + 1) (by omega) (by omega)]
  rfl

theorem utf8EncodeChar_lt256 (c : Char) : ∀ b ∈ utf8EncodeChar c, b < 256 := by
  intro b hb
  unfold utf8EncodeChar at hb
  split at hb
  · simp at hb
    omega
  · split at hb
    · simp at hb
      rcases hb with rfl | rfl <;> omega
    · split at hb
      · simp at hb
        rcases hb with rfl | rfl | rfl <;> omega
      · have hval : c.toNat < 1114112 := by
          rcases c with ⟨v, h⟩
          rcases h with h | h
          · have := h
            simp [Char.toNat]
            omega
          · simp [Char.toNat]
            omega
        simp at hb
        rcases hb with rfl | rfl | rfl | rfl <;> omega

theorem utf8EncodeList_lt256 (l : List Char) : ∀ b ∈ utf8EncodeList l, b < 256 := by
  induction l with
  | nil => simp [utf8EncodeList]
  | cons c cs ih =>
    intro b hb
    simp only [utf8EncodeList, List.mem_append] at hb
    rcases hb with hb | hb
    · exact utf8EncodeChar_lt256 c b hb
    · exact ih b hb

theorem utf8_decode_encode_char (c : Char) (rest : List Nat) :
    utf8DecodeList (utf8EncodeChar c ++ rest) = c :: utf8DecodeList rest := by
  by_cases h1 : c.toNat < 0x80
  · rw [utf8EncodeChar, if_pos h1]
    show utf8DecodeList (c.toNat :: rest) = _
    rw [utf8DecodeList_cons]
    have hstep : utf8Step c.toNat rest = (Char.ofNat c.toNat, rest) := by
      unfold utf8Step
      rw [if_pos h1]
    rw [hstep, charOfNatToNat]
  · by_cases h2 : c.toNat < 0x800
    · rw [utf8EncodeChar, if_neg h1, if_pos h2]
      show utf8DecodeList ((0xC0 + c.toNat / 64) :: (0x80 + c.toNat % 64) :: rest) = _
      rw [utf8DecodeList_cons]
      have hcont : isContByte (0x80 + c.toNat % 64) = true := by
        simp only [isContByte, Bool.and_eq_true, decide_eq_true_eq]
        omega
      have hstep : utf8Step (0xC0 + c.toNat / 64) ((0x80 + c.toNat % 64) :: rest) =
          (Char.ofNat c.toNat, rest) := by
        unfold utf8Step
        rw [if_neg (by omega), if_neg (by omega), if_pos (by omega)]
        show (if isContByte (0x80 + c.toNat % 64) then
            (Char.ofNat ((0xC0 + c.toNat / 64 - 0xC0) * 64 + (0x80 + c.toNat % 64 - 0x80)),
              rest)
          else (replacementChar, (0x80 + c.toNat % 64) :: rest)) = _
        rw [hcont]
        have harith : (0xC0 + c.toNat / 64 - 0xC0) * 64 + (0x80 + c.toNat % 64 - 0x80) =
            c.toNat := by omega
        simp only [if_true, harith]
      rw [hstep, charOfNatToNat]
    · by_cases h3 : c.toNat < 0x10000
      · rw [utf8EncodeChar, if_neg h1, if_neg h2, if_pos h3]
        show utf8DecodeList ((0xE0 + c.toNat / 4096) :: (0x80 + c.toNat / 64 % 64) ::
          (0x80 + c.toNat % 64) :: rest) = _
        rw [utf8DecodeList_cons]
        have hcont : (isContByte (0x80 + c.toNat / 64 % 64) &&
            isContByte (0x80 + c.toNat % 64)) = true := by
          simp only [isContByte, Bool.and_eq_true, decide_eq_true_eq]
          omega
        have hstep : utf8Step (0xE0 + c.toNat / 4096)
            ((0x80 + c.toNat / 64 % 64) :: (0x80 + c.toNat % 64) :: rest) =
            (Char.ofNat c.toNat, rest) := by
          unfold utf8Step
          rw [if_neg (by omega), if_neg (by omega), if_neg (by omega), if_pos (by omega)]
          show (if isContByte (0x80 + c.toNat / 64 % 64) && isContByte (0x80 + c.toNat % 64)
              then
              (Char.ofNat ((0xE0 + c.toNat / 4096 - 0xE0) * 4096 +
                (0x80 + c.toNat / 64 % 64 - 0x80) * 64 + (0x80 + c.toNat % 64 - 0x80)), rest)
            else (replacementChar,
              (0x80 + c.toNat / 64 % 64) :: (0x80 + c.toNat % 64) :: rest)) = _
          rw [hcont]
          have harith : (0xE0 + c.toNat / 4096 - 0xE0) * 4096 +
              (0x80 + c.toNat / 64 % 64 - 0x80) * 64 + (0x80 + c.toNat % 64 - 0x80) =
              c.toNat := by omega
          simp only [if_true, harith]
        rw [hstep, charOfNatToNat]
      · rw [utf8EncodeChar, if_neg h1, if_neg h2, if_neg h3]
        show utf8DecodeList ((0xF0 + c.toNat / 262144) :: (0x80 + c.toNat / 4096 % 64) ::
          (0x80 + c.toNat / 64 % 64) :: (0x80 + c.toNat % 64) :: rest) = _
        rw [utf8DecodeList_cons]
        have hcont : (isContByte (0x80 + c.toNat / 4096 % 64) &&
            isContByte (0x80 + c.toNat / 64 % 64) && isContByte (0x80 + c.toNat % 64)) =
            true := by
          simp only [isContByte, Bool.and_eq_true, decide_eq_true_eq]
          omega
        have hstep : utf8Step (0xF0 + c.toNat / 262144)
            ((0x80 + c.toNat / 4096 % 64) :: (0x80 + c.toNat / 64 % 64) ::
              (0x80 + c.toNat % 64) :: rest) =
            (Char.ofNat c.toNat, rest) := by
          unfold utf8Step
          rw [if_neg (by omega), if_neg (by omega), if_neg (by omega), if_neg (by omega)]
          show (if isContByte (0x80 + c.toNat / 4096 % 64) &&
              isContByte (0x80 + c.toNat / 64 % 64) && isContByte (0x80 + c.toNat % 64) then
              (Char.ofNat ((0xF0 + c.toNat / 262144 - 0xF0) * 262144 +
                (0x80 + c.toNat / 4096 % 64 - 0x80) * 4096 +
                (0x80 + c.toNat / 64 % 64 - 0x80) * 64 + (0x80 + c.toNat % 64 - 0x80)), rest)
            else (replacementChar, (0x80 + c.toNat / 4096 % 64) ::
              (0x80 + c.toNat / 64 % 64) :: (0x80 + c.toNat % 64) :: rest)) = _
          rw [hcont]
          have harith : (0xF0 + c.toNat / 262144 - 0xF0) * 262144 +
              (0x80 + c.toNat / 4096 % 64 - 0x80) * 4096 +
              (0x80 + c.toNat / 64 % 64 - 0x80) * 64 + (0x80 + c.toNat % 64 - 0x80) =
              c.toNat := by omega
          simp only [if_true, harith]
        rw [hstep, charOfNatToNat]

theorem utf8_roundtrip (l : List Char) : utf8DecodeList (utf8EncodeList l) = l := by
  induction l with
  | nil => rfl
  | cons c cs ih =>
    show utf8DecodeList (utf8EncodeChar c ++ utf8EncodeList cs) = c :: cs
    rw [utf8_decode_encode_char, ih]

/-! ## Flat JSON codec: the `JSON.stringify` / `JSON.parse` fragment the worker
exchanges (one object of string, integer and null fields, no whitespace) -/

inductive JVal where
  | str : String → JVal
  | num : Int → JVal
  | null : JVal
deriving DecidableEq, Repr

def hexDigitChar (n : Nat) : Char :=
  if n < 10 then Char.ofNat (48 + n) else Char.ofNat (87 + n)

def hexVal (c : Char) : Option Nat :=
  if 48 ≤ c.toNat ∧ c.toNat ≤ 57 then some (c.toNat - 48)
  else if 97 ≤ c.toNat ∧ c.toNat ≤ 102 then some (c.toNat - 87)
  else if 65 ≤ c.toNat ∧ c.toNat ≤ 70 then some (c.toNat - 55)
  else none

/-- Escaping of one character inside a string literal, as `JSON.stringify`. -/
def jsonEscapeChar (c : Char) : List Char :=
  if c = quoteChar then [backslashChar, quoteChar]
  else if c = backslashChar then [backslashChar, backslashChar]
  else if c = Char.ofNat 8 then [backslashChar, 'b']
  else if c = '\t' then [backslashChar, 't']
  else if c = '\n' then [backslashChar, 'n']
  else if c = Char.ofNat 12 then [backslashChar, 'f']
  else if c = '\r' then [backslashChar, 'r']
  else if c.toNat < 32 then
    [backslashChar, 'u', '0', '0', hexDigitChar (c.toNat / 16), hexDigitChar (c.toNat % 16)]
  else [c]

def jsonEscapeList : List Char → List Char
  | [] => []
  | c :: cs => jsonEscapeChar c ++ jsonEscapeList cs

/-- A JSON string literal: quote, escaped content, quote. -/
def jsonQuote (s : String) : List Char :=
  quoteChar :: (jsonEscapeList s.data ++ [quoteChar])

def unescapeChar (e : Char) : Option Char :=
  if e = quoteChar then some quoteChar
  else if e = backslashChar then some backslashChar
  else if e = '/' then some '/'
  else if e = 'b' then some (Char.ofNat 8)
  else if e = 'f' then some (Char.ofNat 12)
  else if e = 'n' then some '\n'
  else if e = 'r' then some '\r'
  else if e = 't' then some '\t'
  else none

/-- Decode the four hex digits of a `\\uXXXX` escape. -/
def jsonHexStep : List Char → Option (Option Char × List Char)
  | h1 :: h2 :: h3 :: h4 :: rest3 =>
    match hexVal h1, hexVal h2, hexVal h3, hexVal h4 with
    | some a, some b, some c2, some d =>
        some (some (Char.ofNat (a * 4096 + b * 256 + c2 * 16 + d)), rest3)
    | _, _, _, _ => none
  | _ => none

/-- Decode what follows a backslash inside a JSON string literal. -/
def jsonEscStep : List Char → Option (Option Char × List Char)
  | [] => none
  | e :: rest2 =>
    if e = 'u' then jsonHexStep rest2
    else
      match unescapeChar e with
      | some u => some (some u, rest2)
      | none => none

/-- One step inside a JSON string literal: `some (none, rest)` is the closing
quote, `some (some ch, rest)` one decoded character, `none` a malformed escape. -/
def jsonStrStep (c : Char) (rest : List Char) : Option (Option Char × List Char) :=
  if c = quoteChar then some (none, rest)
  else if c = backslashChar then jsonEscStep rest
  else some (some c, rest)

def parseJsonStrAux : Nat → List Char → Option (List Char × List Char)
  | 0, _ => none
  | _ + 1, [] => none
  | fuel + 1, c :: rest =>
    match jsonStrStep c rest with
    | none => none
    | some (none, rest2) => some ([], rest2)
    | some (some ch, rest2) =>
        (parseJsonStrAux fuel rest2).map (fun p => (ch :: p.1, p.2))

/-- Parse the body of a JSON string literal (after the opening quote), up to
and including the closing quote. -/
def parseJsonStringBody (cs : List Char) : Option (List Char × List Char) :=
  parseJsonStrAux (cs.length + 1) cs

def isDigitChar (c : Char) : Bool := 48 ≤ c.toNat && c.toNat ≤ 57

def digitVal (c : Char) : Nat := c.toNat - 48

def digitChar (d : Nat) : Char := Char.ofNat (48 + d)

def natFromDigits (ds : List Char) : Nat :=
  ds.foldl (fun acc d => acc * 10 + digitVal d) 0

def parseNatDigits (cs : List Char) : Option (Nat × List Char) :=
  if (cs.takeWhile isDigitChar).isEmpty then none
  else some (natFromDigits (cs.takeWhile isDigitChar), cs.drop (cs.takeWhile isDigitChar).length)

def natToDigitsAux : Nat → Nat → List Char
  | 0, _ => []
  | fuel + 1, n =>
    if n < 10 then [digitChar n]
    else natToDigitsAux fuel (n / 10) ++ [digitChar (n % 10)]

def natToDigits (n : Nat) : List Char := natToDigitsAux (n + 1) n

theorem natToDigitsAux_irrel :
    ∀ f1 : Nat, ∀ (n f2 : Nat), n < f1 → n < f2 →
      natToDigitsAux f1 n = natToDigitsAux f2 n := by
  intro f1
  induction f1 with
  | zero => intro n f2 h1 _; omega
  | succ f1 ih =>
    intro n f2 h1 h2
    cases f2 with
    | zero => omega
    | succ f2 =>
      show (if n < 10 then [digitChar n]
          else natToDigitsAux f1 (n / 10) ++ [digitChar (n % 10)]) =
        (if n < 10 then [digitChar n]
          else natToDigitsAux f2 (n / 10) ++ [digitChar (n % 10)])
      by_cases hn : n < 10
      · rw [if_pos hn, if_pos hn]
      · rw [if_neg hn, if_neg hn]
        rw [ih (n / 10) f2 (by omega) (by omega)]

theorem natToDigits_eq (n : Nat) :
    natToDigits n = if n < 10 then [digitChar n]
      else natToDigits (n / 10) ++ [digitChar (n % 10)] := by
  show natToDigitsAux (n + 1) n = _
  show (if n < 10 then [digitChar n]
    else natToDigitsAux n (n / 10) ++ [digitChar (n % 10)]) = _
  by_cases hn : n < 10
  · rw [if_pos hn, if_pos hn]
  · rw [if_neg hn, if_neg hn]
    rw [natToDigitsAux_irrel n (n / 10) (n / 10 + 1) (by omega) (by omega)]
    rfl

def natToString (n : Nat) : String := String.mk (natToDigits n)

def intToDigits (i : Int) : List Char :=
  if i < 0 then '-' :: natToDigits i.natAbs else natToDigits i.natAbs

def intToString (i : Int) : String := String.mk (intToDigits i)

/-- Parse one JSON value of the flat fragment: string, integer or null. -/
def parseJVal (cs : List Char) : Option (JVal × List Char) :=
  match cs with
  | [] => none
  | c :: rest =>
    if c = quoteChar then
      (parseJsonStringBody rest).map (fun p => (JVal.str (String.mk p.1), p.2))
    else if c = '-' then
      (parseNatDigits rest).map (fun p => (JVal.num (-(p.1 : Int)), p.2))
    else if isDigitChar c then
      (parseNatDigits (c :: rest)).map (fun p => (JVal.num ((p.1 : Nat) : Int), p.2))
    else if c = 'n' then
      match rest with
      | u :: l1 :: l2 :: rest2 =>
        if u = 'u' ∧ l1 = 'l' ∧ l2 = 'l' then some (JVal.null, rest2) else none
      | _ => none
    else none

def expectColon : List Char → Option (List Char)
  | c :: rest => if c = ':' then some rest else none
  | [] => none

inductive PairSep where
  | comma (rest : List Char)
  | done (rest : List Char)
  | bad

/-- Classify what follows a parsed value inside an object: a comma, the
closing brace, or a malformed separator. -/
def pairSep : List Char → PairSep
  | d :: rest5 =>
      if d = ',' then .comma rest5 else if d = rbraceChar then .done rest5 else .bad
  | [] => .bad

/-- Parse the `"key":value` pairs of a non-empty flat JSON object, consuming
the closing brace. -/
def parsePairs : Nat → List Char → Option (List (String × JVal) × List Char)
  | 0, _ => none
  | fuel + 1, cs =>
    match cs with
    | [] => none
    | c :: rest =>
      if c = quoteChar then
        (parseJsonStringBody rest).bind (fun kr =>
          (expectColon kr.2).bind (fun rest3 =>
            (parseJVal rest3).bind (fun vr =>
              match pairSep vr.2 with
              | .comma rest5 =>
                  (parsePairs fuel rest5).map (fun p => ((String.mk kr.1, vr.1) :: p.1, p.2))
              | .done rest5 => some ([(String.mk kr.1, vr.1)], rest5)
              | .bad => none)))
      else none

/-- The JSON parser on the flat-object fragment; `none` models the
`SyntaxError` throw. -/
def parseClaimsJson (cs : List Char) : Option (List (String × JVal)) :=
  match cs with
  | [] => none
  | c :: rest =>
    if c = lbraceChar then
      if rest.head? = some rbraceChar then (if rest.tail = [] then some [] else none)
      else
        match parsePairs (rest.length + 1) rest with
        | some (ps, rest3) => if rest3 = [] then some ps else none
        | none => none
    else none

/-- Property lookup on a parsed object: the last binding of a duplicated key
wins, as in `JSON.parse`. -/
def jsGet (p : List (String × JVal)) (k : String) : Option JVal :=
  List.lookup k p.reverse

/-! ### JSON string literal round-trip -/

theorem hexVal_hexDigitChar {v : Nat} (h : v < 16) : hexVal (hexDigitChar v) = some v := by
  have : ∀ w < 16, hexVal (hexDigitChar w) = some w := by decide
  exact this v h

theorem parseJsonStrAux_escape :
    ∀ (s : List Char) (rest : List Char) (fuel : Nat), s.length < fuel →
      parseJsonStrAux fuel (jsonEscapeList s ++ quoteChar :: rest) = some (s, rest) := by
  intro s
  induction s with
  | nil =>
    intro rest fuel hf
    match fuel, hf with
    | f + 1, _ =>
      show parseJsonStrAux (f + 1) (quoteChar :: rest) = _
      simp only [parseJsonStrAux]
      have hstep : jsonStrStep quoteChar rest = some (none, rest) := by
        unfold jsonStrStep
        rw [if_pos rfl]
      rw [hstep]
  | cons c cs ih =>
    intro rest fuel hf
    match fuel, hf with
    | f + 1, hf2 =>
      have hfs : cs.length < f := by
        simp only [List.length_cons] at hf2
        omega
      show parseJsonStrAux (f + 1)
        ((jsonEscapeChar c ++ jsonEscapeList cs) ++ quoteChar :: rest) = _
      rw [List.append_assoc]
      set tail := jsonEscapeList cs ++ quoteChar :: rest with htail
      by_cases h1 : c = quoteChar
      · subst h1
        rw [show jsonEscapeChar quoteChar = [backslashChar, quoteChar] from by
          unfold jsonEscapeChar; rw [if_pos rfl]]
        simp only [List.cons_append, List.singleton_append, List.nil_append]
        simp only [parseJsonStrAux]
        have hstep : jsonStrStep backslashChar (quoteChar :: tail) =
            some (some quoteChar, tail) := by
          unfold jsonStrStep
          rw [if_neg (by decide), if_pos rfl]
          simp only [jsonEscStep]
          rw [if_neg (by decide)]
          rw [show unescapeChar quoteChar = some quoteChar from by decide]
        rw [hstep]
        show Option.map (fun p => (quoteChar :: p.1, p.2)) (parseJsonStrAux f tail) = _
        rw [htail, ih rest f hfs]
        rfl
      · 
        by_cases h2 : c = backslashChar
        · subst h2
          rw [show jsonEscapeChar backslashChar = [backslashChar, backslashChar] from by
            unfold jsonEscapeChar; rw [if_neg (by decide), if_pos rfl]]
          simp only [List.cons_append, List.singleton_append, List.nil_append]
          simp only [parseJsonStrAux]
          have hstep : jsonStrStep backslashChar (backslashChar :: tail) =
              some (some backslashChar, tail) := by
            unfold jsonStrStep
            rw [if_neg (by decide), if_pos rfl]
            simp only [jsonEscStep]
            rw [if_neg (by decide)]
            rw [show unescapeChar backslashChar = some backslashChar from by decide]
          rw [hstep]
          show Option.map (fun p => (backslashChar :: p.1, p.2)) (parseJsonStrAux f tail) = _
          rw [htail, ih rest f hfs]
          rfl
        · 
          by_cases h3 : c = (Char.ofNat 8)
          · subst h3
            rw [show jsonEscapeChar (Char.ofNat 8) = [backslashChar, 'b'] from by
              unfold jsonEscapeChar; rw [if_neg (by decide), if_neg (by decide), if_pos rfl]]
            simp only [List.cons_append, List.singleton_append, List.nil_append]
            simp only [parseJsonStrAux]
            have hstep : jsonStrStep backslashChar ('b' :: tail) =
                some (some (Char.ofNat 8), tail) := by
              unfold jsonStrStep
              rw [if_neg (by decide), if_pos rfl]
              simp only [jsonEscStep]
              rw [if_neg (by decide)]
              rw [show unescapeChar 'b' = some (Char.ofNat 8) from by decide]
            rw [hstep]
            show Option.map (fun p => ((Char.ofNat 8) :: p.1, p.2)) (parseJsonStrAux f tail) = _
            rw [htail, ih rest f hfs]
            rfl
          · 
            by_cases h4 : c = '\t'
            · subst h4
              rw [show jsonEscapeChar '\t' = [backslashChar, 't'] from by
                unfold jsonEscapeChar; rw [if_neg (by decide), if_neg (by decide), if_neg (by decide), if_pos rfl]]
              simp only [List.cons_append, List.singleton_append, List.nil_append]
              simp only [parseJsonStrAux]
              have hstep : jsonStrStep backslashChar ('t' :: tail) =
                  some (some '\t', tail) := by
                unfold jsonStrStep
                rw [if_neg (by decide), if_pos rfl]
                simp only [jsonEscStep]
                rw [if_neg (by decide)]
                rw [show unescapeChar 't' = some '\t' from by decide]
              rw [hstep]
              show Option.map (fun p => ('\t' :: p.1, p.2)) (parseJsonStrAux f tail) = _
              rw [htail, ih rest f hfs]
              rfl
            · 
              by_cases h5 : c = '\n'
              · subst h5
                rw [show jsonEscapeChar '\n' = [backslashChar, 'n'] from by
                  unfold jsonEscapeChar; rw [if_neg (by decide), if_neg (by decide), if_neg (by decide), if_neg (by decide), if_pos rfl]]
                simp only [List.cons_append, List.singleton_append, List.nil_append]
                simp only [parseJsonStrAux]
                have hstep : jsonStrStep backslashChar ('n' :: tail) =
                    some (some '\n', tail) := by
                  unfold jsonStrStep
                  rw [if_neg (by decide), if_pos rfl]
                  simp only [jsonEscStep]
                  rw [if_neg (by decide)]
                  rw [show unescapeChar 'n' = some '\n' from by decide]
                rw [hstep]
                show Option.map (fun p => ('\n' :: p.1, p.2)) (parseJsonStrAux f tail) = _
                rw [htail, ih rest f hfs]
                rfl
              · 
                by_cases h6 : c = (Char.ofNat 12)
                · subst h6
                  rw [show jsonEscapeChar (Char.ofNat 12) = [backslashChar, 'f'] from by
                    unfold jsonEscapeChar; rw [if_neg (by decide), if_neg (by decide), if_neg (by decide), if_neg (by decide), if_neg (by decide), if_pos rfl]]
                  simp only [List.cons_append, List.singleton_append, List.nil_append]
                  simp only [parseJsonStrAux]
                  have hstep : jsonStrStep backslashChar ('f' :: tail) =
                      some (some (Char.ofNat 12), tail) := by
                    unfold jsonStrStep
                    rw [if_neg (by decide), if_pos rfl]
                    simp only [jsonEscStep]
                    rw [if_neg (by decide)]
                    rw [show unescapeChar 'f' = some (Char.ofNat 12) from by decide]
                  rw [hstep]
                  show Option.map (fun p => ((Char.ofNat 12) :: p.1, p.2)) (parseJsonStrAux f tail) = _
                  rw [htail, ih rest f hfs]
                  rfl
                · 
                  by_cases h7 : c = '\r'
                  · subst h7
                    rw [show jsonEscapeChar '\r' = [backslashChar, 'r'] from by
                      unfold jsonEscapeChar; rw [if_neg (by decide), if_neg (by decide), if_neg (by decide), if_neg (by decide), if_neg (by decide), if_neg (by decide), if_pos rfl]]
                    simp only [List.cons_append, List.singleton_append, List.nil_append]
                    simp only [parseJsonStrAux]
                    have hstep : jsonStrStep backslashChar ('r' :: tail) =
                        some (some '\r', tail) := by
                      unfold jsonStrStep
                      rw [if_neg (by decide), if_pos rfl]
                      simp only [jsonEscStep]
                      rw [if_neg (by decide)]
                      rw [show unescapeChar 'r' = some '\r' from by decide]
                    rw [hstep]
                    show Option.map (fun p => ('\r' :: p.1, p.2)) (parseJsonStrAux f tail) = _
                    rw [htail, ih rest f hfs]
                    rfl
                  · by_cases h8 : c.toNat < 32
                    · rw [show jsonEscapeChar c = [backslashChar, 'u', '0', '0',
                          hexDigitChar (c.toNat / 16), hexDigitChar (c.toNat % 16)] from by
                        unfold jsonEscapeChar
                        rw [if_neg h1, if_neg h2, if_neg h3, if_neg h4, if_neg h5, if_neg h6,
                          if_neg h7, if_pos h8]]
                      simp only [List.cons_append, List.singleton_append, List.nil_append]
                      simp only [parseJsonStrAux]
                      have hstep : jsonStrStep backslashChar ('u' :: '0' :: '0' ::
                          hexDigitChar (c.toNat / 16) :: hexDigitChar (c.toNat % 16) :: tail) =
                          some (some c, tail) := by
                        unfold jsonStrStep
                        rw [if_neg (by decide), if_pos rfl]
                        simp only [jsonEscStep]
                        simp only [if_true]
                        simp only [jsonHexStep]
                        rw [show hexVal '0' = some 0 from by decide]
                        rw [hexVal_hexDigitChar (by omega : c.toNat / 16 < 16),
                          hexVal_hexDigitChar (by omega : c.toNat % 16 < 16)]
                        show some (some (Char.ofNat
                          (0 * 4096 + 0 * 256 + c.toNat / 16 * 16 + c.toNat % 16)), tail) = _
                        rw [show 0 * 4096 + 0 * 256 + c.toNat / 16 * 16 + c.toNat % 16 = c.toNat from by
                          omega, charOfNatToNat]
                      rw [hstep]
                      show Option.map (fun p => (c :: p.1, p.2)) (parseJsonStrAux f tail) = _
                      rw [htail, ih rest f hfs]
                      rfl
                    · rw [show jsonEscapeChar c = [c] from by
                        unfold jsonEscapeChar
                        rw [if_neg h1, if_neg h2, if_neg h3, if_neg h4, if_neg h5, if_neg h6,
                          if_neg h7, if_neg h8]]
                      simp only [List.cons_append, List.singleton_append, List.nil_append]
                      simp only [parseJsonStrAux]
                      have hstep : jsonStrStep c tail = some (some c, tail) := by
                        unfold jsonStrStep
                        rw [if_neg h1, if_neg h2]
                      rw [hstep]
                      show Option.map (fun p => (c :: p.1, p.2)) (parseJsonStrAux f tail) = _
                      rw [htail, ih rest f hfs]
                      rfl

/-! ### Digit and integer round-trip -/

theorem charToNatOfNat {m : Nat} (h : m < 55296) : (Char.ofNat m).toNat = m := by
  have hv : m.isValidChar := Or.inl h
  simp [Char.ofNat, hv, Char.toNat, Char.ofNatAux, UInt32.toNat]

theorem digitVal_digitChar {d : Nat} (h : d < 10) : digitVal (digitChar d) = d := by
  unfold digitVal digitChar
  rw [charToNatOfNat (by omega)]
  omega

theorem isDigitChar_digitChar {d : Nat} (h : d < 10) : isDigitChar (digitChar d) = true := by
  unfold isDigitChar digitChar
  rw [Bool.and_eq_true, decide_eq_true_eq, decide_eq_true_eq, charToNatOfNat (by omega)]
  omega

theorem natToDigits_all_digit (n : Nat) : ∀ c ∈ natToDigits n, isDigitChar c = true := by
  induction n using Nat.strong_induction_on with
  | _ n ih =>
    intro c hc
    by_cases h : n < 10
    · rw [natToDigits_eq, if_pos h] at hc
      simp only [List.mem_singleton] at hc
      subst hc
      exact isDigitChar_digitChar h
    · rw [natToDigits_eq, if_neg h] at hc
      rcases List.mem_append.mp hc with hc | hc
      · exact ih (n / 10) (by omega) c hc
      · simp only [List.mem_singleton] at hc
        subst hc
        exact isDigitChar_digitChar (by omega)

theorem natToDigits_ne_nil (n : Nat) : natToDigits n ≠ [] := by
  by_cases h : n < 10
  · rw [natToDigits_eq, if_pos h]
    simp
  · rw [natToDigits_eq, if_neg h]
    simp

theorem natFromDigits_natToDigits (n : Nat) : natFromDigits (natToDigits n) = n := by
  induction n using Nat.strong_induction_on with
  | _ n ih =>
    by_cases h : n < 10
    · rw [natToDigits_eq, if_pos h]
      unfold natFromDigits
      simp only [List.foldl_cons, List.foldl_nil]
      rw [digitVal_digitChar h]
      omega
    · rw [natToDigits_eq, if_neg h]
      unfold natFromDigits
      rw [List.foldl_append]
      have hpre : List.foldl (fun acc d => acc * 10 + digitVal d) 0 (natToDigits (n / 10)) =
          n / 10 := ih (n / 10) (by omega)
      rw [hpre]
      simp only [List.foldl_cons, List.foldl_nil]
      rw [digitVal_digitChar (by omega)]
      omega

theorem takeWhile_append_not {p : Char → Bool} {xs ys : List Char}
    (hxs : ∀ x ∈ xs, p x = true) (hys : ∀ y, ys.head? = some y → p y = false) :
    (xs ++ ys).takeWhile p = xs := by
  induction xs with
  | nil =>
    simp only [List.nil_append]
    cases ys with
    | nil => rfl
    | cons y t =>
      rw [List.takeWhile_cons, hys y rfl]
      simp
  | cons x xs ih =>
    simp only [List.cons_append, List.takeWhile_cons, hxs x (by simp)]
    rw [ih (fun a ha => hxs a (by simp [ha]))]
    simp

theorem parseNatDigits_append (n : Nat) {rest : List Char}
    (hrest : ∀ y, rest.head? = some y → isDigitChar y = false) :
    parseNatDigits (natToDigits n ++ rest) = some (n, rest) := by
  have htw : (natToDigits n ++ rest).takeWhile isDigitChar = natToDigits n :=
    takeWhile_append_not (natToDigits_all_digit n) hrest
  unfold parseNatDigits
  rw [htw]
  rw [if_neg (by simp [List.isEmpty_iff, natToDigits_ne_nil n])]
  rw [natFromDigits_natToDigits, List.drop_left]

theorem char_ne_of_toNat_ne {c d : Char} (h : c.toNat ≠ d.toNat) : c ≠ d :=
  fun he => h (congrArg Char.toNat he)

theorem isDigitChar_toNat {c : Char} (h : isDigitChar c = true) :
    48 ≤ c.toNat ∧ c.toNat ≤ 57 := by
  simpa [isDigitChar, Bool.and_eq_true, decide_eq_true_eq] using h

/-! ### Parsing back what `JSON.stringify` produced -/

theorem optBindSome {α β : Type} (x : α) (f : α → Option β) :
    (Option.bind (some x) f) = f x := rfl

theorem jsonEscapeChar_len_pos (c : Char) : 1 ≤ (jsonEscapeChar c).length := by
  unfold jsonEscapeChar
  repeat' split
  all_goals simp

theorem jsonEscapeList_len_ge (s : List Char) : s.length ≤ (jsonEscapeList s).length := by
  induction s with
  | nil => simp [jsonEscapeList]
  | cons c cs ih =>
    have := jsonEscapeChar_len_pos c
    simp only [jsonEscapeList, List.length_append, List.length_cons]
    omega

theorem parseJsonStringBody_escape (s : List Char) (rest : List Char) :
    parseJsonStringBody (jsonEscapeList s ++ quoteChar :: rest) = some (s, rest) := by
  unfold parseJsonStringBody
  apply parseJsonStrAux_escape
  have := jsonEscapeList_len_ge s
  simp only [List.length_append, List.length_cons]
  omega

theorem parseJVal_str (s : String) (rest : List Char) :
    parseJVal (jsonQuote s ++ rest) = some (JVal.str s, rest) := by
  unfold jsonQuote
  simp only [List.cons_append, List.append_assoc, List.singleton_append, List.nil_append]
  simp only [parseJVal]
  simp only [eq_self_iff_true, if_true]
  rw [parseJsonStringBody_escape]
  rfl

theorem parseJVal_int (i : Int) {rest : List Char}
    (hrest : ∀ y, rest.head? = some y → isDigitChar y = false) :
    parseJVal (intToDigits i ++ rest) = some (JVal.num i, rest) := by
  by_cases hneg : i < 0
  · rw [intToDigits, if_pos hneg]
    simp only [List.cons_append]
    simp only [parseJVal]
    rw [if_neg (by decide)]
    simp only [eq_self_iff_true, if_true]
    rw [parseNatDigits_append i.natAbs hrest]
    have : -((i.natAbs : Nat) : Int) = i := by omega
    rw [show (Option.map (fun p => (JVal.num (-(p.1 : Int)), p.2))
      (some (i.natAbs, rest))) = some (JVal.num (-((i.natAbs : Nat) : Int)), rest) from rfl]
    rw [this]
  · rw [intToDigits, if_neg hneg]
    cases hnd : natToDigits i.natAbs with
    | nil => exact absurd hnd (natToDigits_ne_nil _)
    | cons d ds =>
      have hd : isDigitChar d = true := by
        apply natToDigits_all_digit i.natAbs
        rw [hnd]
        simp
      have hdn := isDigitChar_toNat hd
      simp only [List.cons_append]
      simp only [parseJVal]
      rw [if_neg (by
        apply char_ne_of_toNat_ne
        have : quoteChar.toNat = 34 := by decide
        omega)]
      rw [if_neg (by
        apply char_ne_of_toNat_ne
        have : ('-' : Char).toNat = 45 := by decide
        omega)]
      rw [if_pos hd]
      rw [show (d :: (ds ++ rest)) = natToDigits i.natAbs ++ rest from by
        rw [hnd]; simp]
      rw [parseNatDigits_append i.natAbs hrest]
      have : ((i.natAbs : Nat) : Int) = i := by omega
      rw [show (Option.map (fun p => (JVal.num ((p.1 : Nat) : Int), p.2))
        (some (i.natAbs, rest))) = some (JVal.num ((i.natAbs : Nat) : Int), rest) from rfl]
      rw [this]

theorem parseJVal_null (rest : List Char) :
    parseJVal ('n' :: 'u' :: 'l' :: 'l' :: rest) = some (JVal.null, rest) := by
  simp only [parseJVal]
  rw [if_neg (by decide), if_neg (by decide), if_neg (by decide)]
  simp only [eq_self_iff_true, if_true, and_self]

theorem parsePairs_step (f : Nat) (k : String) {v : JVal} {tail rest : List Char}
    (hval : parseJVal tail = some (v, ',' :: rest)) :
    parsePairs (f + 1) (jsonQuote k ++ ':' :: tail) =
      (parsePairs f rest).map (fun p => ((k, v) :: p.1, p.2)) := by
  unfold jsonQuote
  simp only [List.cons_append, List.append_assoc, List.singleton_append, List.nil_append]
  simp only [parsePairs]
  simp only [eq_self_iff_true, if_true]
  rw [parseJsonStringBody_escape k.data (':' :: tail)]
  simp only [optBindSome, expectColon, eq_self_iff_true, if_true]
  rw [hval]
  simp only [optBindSome]
  rfl

theorem parsePairs_last (f : Nat) (k : String) {v : JVal} {tail rest : List Char}
    (hval : parseJVal tail = some (v, rbraceChar :: rest)) :
    parsePairs (f + 1) (jsonQuote k ++ ':' :: tail) = some ([(k, v)], rest) := by
  unfold jsonQuote
  simp only [List.cons_append, List.append_assoc, List.singleton_append, List.nil_append]
  simp only [parsePairs]
  simp only [eq_self_iff_true, if_true]
  rw [parseJsonStringBody_escape k.data (':' :: tail)]
  simp only [optBindSome, expectColon, eq_self_iff_true, if_true]
  rw [hval]
  simp only [optBindSome]
  rfl

/-! ## The worker's token claims (`{ id, action, exp }`) -/

structure Claims where
  id : String
  action : String
  exp : Int
deriving DecidableEq, Repr

/-- The parsed-object form of a claims value. -/
def claimsFields (c : Claims) : List (String × JVal) :=
  [("id", JVal.str c.id), ("action", JVal.str c.action), ("exp", JVal.num c.exp)]

/-- Serialization of the claims object, fields in object-literal order. -/
def stringifyClaimsList (c : Claims) : List Char :=
  lbraceChar :: (jsonQuote "id" ++ ':' :: (jsonQuote c.id ++ ',' ::
    (jsonQuote "action" ++ ':' :: (jsonQuote c.action ++ ',' ::
      (jsonQuote "exp" ++ ':' :: (intToDigits c.exp ++ [rbraceChar]))))))

def stringifyClaims (c : Claims) : String := String.mk (stringifyClaimsList c)

theorem jsonQuote_head (s : String) (x : List Char) :
    (jsonQuote s ++ x).head? = some quoteChar := by
  simp [jsonQuote]

theorem parseClaimsJson_stringify (c : Claims) :
    parseClaimsJson (stringifyClaimsList c) = some (claimsFields c) := by
  unfold stringifyClaimsList
  simp only [parseClaimsJson]
  simp only [eq_self_iff_true, if_true]
  rw [if_neg (by rw [jsonQuote_head]; simp; decide)]
  have hlen : 2 ≤ (jsonQuote "id" ++ ':' :: (jsonQuote c.id ++ ',' ::
      (jsonQuote "action" ++ ':' :: (jsonQuote c.action ++ ',' ::
        (jsonQuote "exp" ++ ':' :: (intToDigits c.exp ++ [rbraceChar])))))).length := by
    simp only [List.length_append, List.length_cons]
    have h4 : (jsonQuote "id").length = 4 := by decide
    omega
  obtain ⟨g, hg⟩ := Nat.exists_eq_add_of_le hlen
  rw [hg]
  rw [show 2 + g + 1 = (g + 2) + 1 from by omega]
  rw [parsePairs_step (g + 2) "id" (parseJVal_str c.id _)]
  rw [show g + 2 = (g + 1) + 1 from rfl]
  rw [parsePairs_step (g + 1) "action" (parseJVal_str c.action _)]
  rw [show (intToDigits c.exp ++ [rbraceChar]) = intToDigits c.exp ++ rbraceChar :: []
    from rfl]
  rw [parsePairs_last g "exp" (parseJVal_int c.exp (by
    intro y hy
    simp only [List.head?_cons, Option.some.injEq] at hy
    subst hy
    decide))]
  rfl

/-! ## timingSafeEqual -/

theorem natOrEqZero {x y : Nat} : x ||| y = 0 ↔ x = 0 ∧ y = 0 := by
  constructor
  · intro h
    have hb : ∀ i, x.testBit i = false ∧ y.testBit i = false := by
      intro i
      have := congrArg (fun n => Nat.testBit n i) h
      simp only [Nat.testBit_or, Nat.zero_testBit, Bool.or_eq_false_iff] at this
      exact this
    constructor
    · apply Nat.eq_of_testBit_eq
      intro i
      simp [(hb i).1, Nat.zero_testBit]
    · apply Nat.eq_of_testBit_eq
      intro i
      simp [(hb i).2, Nat.zero_testBit]
  · rintro ⟨rfl, rfl⟩
    rfl

/-- The source's loop `for i; out |= a[i] ^ b[i]`, instrumented with the
number of positions examined: returns the accumulated `out` and the
iteration count. -/
def tseLoop : List Nat → List Nat → Nat → Nat × Nat
  | [], _, out => (out, 0)
  | _ :: _, [], out => (out, 0)
  | x :: xs, y :: ys, out =>
      ((tseLoop xs ys (out ||| (x ^^^ y))).1, (tseLoop xs ys (out ||| (x ^^^ y))).2 + 1)

/-- Function `timingSafeEqual` from the source: length check, then a full-length
xor-accumulating scan with no early exit. -/
def timingSafeEqual (a b : List Nat) : Bool :=
  if a.length ≠ b.length then false
  else decide ((tseLoop a b 0).1 = 0)

/-- The number of byte positions the comparison loop examines. -/
def tseSteps (a b : List Nat) : Nat :=
  if a.length ≠ b.length then 0 else (tseLoop a b 0).2

theorem tseLoop_fst_eq_zero :
    ∀ {a b : List Nat}, a.length = b.length →
      ∀ out, ((tseLoop a b out).1 = 0 ↔ out = 0 ∧ a = b) := by
  intro a
  induction a with
  | nil =>
    intro b hlen out
    cases b with
    | nil => simp [tseLoop]
    | cons y ys => simp at hlen
  | cons x xs ih =>
    intro b hlen out
    cases b with
    | nil => simp at hlen
    | cons y ys =>
      have hlen2 : xs.length = ys.length := by
        simpa using hlen
      show ((tseLoop xs ys (out ||| (x ^^^ y))).1 = 0) ↔ _
      rw [ih hlen2]
      rw [natOrEqZero]
      rw [Nat.xor_eq_zero]
      constructor
      · rintro ⟨⟨h1, h2⟩, h3⟩
        exact ⟨h1, by rw [h2, h3]⟩
      · rintro ⟨h1, h2⟩
        injection h2 with h2a h2b
        exact ⟨⟨h1, h2a⟩, h2b⟩

theorem tseLoop_snd_eq_length :
    ∀ {a b : List Nat}, a.length = b.length → ∀ out, (tseLoop a b out).2 = a.length := by
  intro a
  induction a with
  | nil =>
    intro b hlen out
    cases b with
    | nil => simp [tseLoop]
    | cons y ys => simp at hlen
  | cons x xs ih =>
    intro b hlen out
    cases b with
    | nil => simp at hlen
    | cons y ys =>
      have hlen2 : xs.length = ys.length := by
        simpa using hlen
      show (tseLoop xs ys (out ||| (x ^^^ y))).2 + 1 = xs.length + 1
      rw [ih hlen2]

theorem timingSafeEqual_iff_eq (a b : List Nat) : timingSafeEqual a b = true ↔ a = b := by
  unfold timingSafeEqual
  by_cases hlen : a.length = b.length
  · rw [if_neg (by omega)]
    rw [decide_eq_true_eq]
    rw [tseLoop_fst_eq_zero hlen 0]
    simp
  · rw [if_pos (by omega)]
    constructor
    · intro h
      simp at h
    · intro h
      subst h
      simp at hlen

theorem timingSafeEqual_refl (a : List Nat) : timingSafeEqual a a = true :=
  (timingSafeEqual_iff_eq a a).mpr rfl

/-! ## The token codec (`signToken` / `verifyToken`) -/

abbrev Payload := List (String × JVal)

/-- Splitting on a separator character, as the JS string split. -/
def splitCharList (sep : Char) : List Char → List (List Char)
  | [] => [[]]
  | c :: rest =>
    if c = sep then [] :: splitCharList sep rest
    else
      match splitCharList sep rest with
      | [] => [[c]]
      | h :: t => (c :: h) :: t

def splitOnDot (s : String) : List String :=
  (splitCharList '.' s.data).map String.mk

/-- Function `signToken` from the source, parameterised by the platform HMAC. -/
def signToken (hmacSha256 : List Nat → List Nat → List Nat) (payload : Claims)
    (secret : String) : String :=
  let payloadBytes := toUtf8 (stringifyClaims payload)
  let sigBytes := hmacSha256 payloadBytes (toUtf8 secret)
  base64UrlEncode payloadBytes ++ "." ++ base64UrlEncode sigBytes

/-- Function `verifyToken` from the source: `.ok none` is the `return null` path,
`.error e` a thrown exception (invalid base64url, or claims that are not
JSON), `.ok (some payload)` the parsed claims. -/
def verifyToken (hmacSha256 : List Nat → List Nat → List Nat) (token secret : String) :
    Except String (Option Payload) :=
  match splitOnDot token with
  | [p0, p1] =>
    match base64UrlDecode p0 with
    | none => .error "InvalidCharacterError"
    | some payloadBytes =>
      match base64UrlDecode p1 with
      | none => .error "InvalidCharacterError"
      | some providedSig =>
        if timingSafeEqual providedSig (hmacSha256 payloadBytes (toUtf8 secret)) then
          match parseClaimsJson (utf8DecodeList payloadBytes) with
          | none => .error "Unexpected token in JSON"
          | some payload => .ok (some payload)
        else .ok none
  | _ => .ok none

theorem splitCharList_no_sep {sep : Char} :
    ∀ {l : List Char}, (∀ c ∈ l, c ≠ sep) → splitCharList sep l = [l] := by
  intro l
  induction l with
  | nil => intro h; rfl
  | cons c rest ih =>
    intro h
    rw [splitCharList, if_neg (h c (by simp))]
    rw [ih (fun d hd => h d (by simp [hd]))]

theorem splitCharList_append {sep : Char} :
    ∀ {A B : List Char}, (∀ c ∈ A, c ≠ sep) → (∀ c ∈ B, c ≠ sep) →
      splitCharList sep (A ++ sep :: B) = [A, B] := by
  intro A
  induction A with
  | nil =>
    intro B _ hB
    show splitCharList sep (sep :: B) = _
    rw [splitCharList, if_pos rfl, splitCharList_no_sep hB]
  | cons c A2 ih =>
    intro B hA hB
    show splitCharList sep (c :: (A2 ++ sep :: B)) = _
    rw [splitCharList, if_neg (hA c (by simp))]
    rw [ih (fun d hd => hA d (by simp [hd])) hB]

theorem base64UrlEncode_no_dot {bs : List Nat} :
    ∀ c ∈ (base64UrlEncode bs).data, c ≠ '.' := by
  intro c hc
  rw [base64UrlEncode_data] at hc
  rcases List.mem_map.mp hc with ⟨d, hd, rfl⟩
  exact (urlmapped_props (b64chars_mem_isB64 hd)).2

theorem splitOnDot_token (A B : List Nat) :
    splitOnDot (base64UrlEncode A ++ "." ++ base64UrlEncode B) =
      [base64UrlEncode A, base64UrlEncode B] := by
  unfold splitOnDot
  rw [String.data_append, String.data_append]
  rw [show ("." : String).data = ['.'] from rfl]
  rw [List.append_assoc]
  rw [show (['.'] ++ (base64UrlEncode B).data) = '.' :: (base64UrlEncode B).data from rfl]
  rw [splitCharList_append base64UrlEncode_no_dot base64UrlEncode_no_dot]
  simp

theorem toUtf8_lt256 (s : String) : ∀ b ∈ toUtf8 s, b < 256 :=
  utf8EncodeList_lt256 s.data

theorem verifyToken_eval (hm : List Nat → List Nat → List Nat)
    {token secret p0 p1 : String} {pb sb : List Nat}
    (hsplit : splitOnDot token = [p0, p1])
    (h0 : base64UrlDecode p0 = some pb)
    (h1 : base64UrlDecode p1 = some sb) :
    verifyToken hm token secret =
      (if timingSafeEqual sb (hm pb (toUtf8 secret)) then
        match parseClaimsJson (utf8DecodeList pb) with
        | none => Except.error "Unexpected token in JSON"
        | some payload => Except.ok (some payload)
      else Except.ok none) := by
  unfold verifyToken
  rw [hsplit]
  show (match base64UrlDecode p0 with
    | none => Except.error "InvalidCharacterError"
    | some payloadBytes =>
      match base64UrlDecode p1 with
      | none => Except.error "InvalidCharacterError"
      | some providedSig =>
        if timingSafeEqual providedSig (hm payloadBytes (toUtf8 secret)) = true then
          match parseClaimsJson (utf8DecodeList payloadBytes) with
          | none => Except.error "Unexpected token in JSON"
          | some payload => Except.ok (some payload)
        else Except.ok none) = _
  rw [h0, h1]

/-- C1: Round-trip — for every claims object `C` with string fields `id` and
`action` and integer field `exp`, and every secret string `S` (for any
byte-valued tag function in place of the platform HMAC), verifying the token
produced by `signToken(C, S)` with the same secret succeeds and returns
claims equal to `C`. -/
theorem C1_sign_verify_roundtrip (hmacSha256 : List Nat → List Nat → List Nat)
    (hby : ∀ m k, ∀ b ∈ hmacSha256 m k, b < 256) (c : Claims) (s : String) :
    verifyToken hmacSha256 (signToken hmacSha256 c s) s =
      Except.ok (some (claimsFields c)) := by
  simp only [signToken]
  rw [verifyToken_eval hmacSha256 (splitOnDot_token _ _)
    (base64Url_roundtrip (toUtf8_lt256 _))
    (base64Url_roundtrip (hby _ _))]
  rw [if_pos (timingSafeEqual_refl _)]
  rw [show utf8DecodeList (toUtf8 (stringifyClaims c)) = stringifyClaimsList c from by
    unfold toUtf8
    rw [utf8_roundtrip]
    rfl]
  rw [parseClaimsJson_stringify]

/-- C2: Forgery resistance across secrets — for every claims object `C` and
secrets `S1`, `S2` whose tags over the claims bytes differ, verifying the
token signed under `S1` with secret `S2` returns invalid (`null`). -/
theorem C2_cross_secret_invalid (hmacSha256 : List Nat → List Nat → List Nat)
    (hby : ∀ m k, ∀ b ∈ hmacSha256 m k, b < 256) (c : Claims) (s1 s2 : String)
    (hdiff : hmacSha256 (toUtf8 (stringifyClaims c)) (toUtf8 s1) ≠
      hmacSha256 (toUtf8 (stringifyClaims c)) (toUtf8 s2)) :
    verifyToken hmacSha256 (signToken hmacSha256 c s1) s2 = Except.ok none := by
  simp only [signToken]
  rw [verifyToken_eval hmacSha256 (splitOnDot_token _ _)
    (base64Url_roundtrip (toUtf8_lt256 _))
    (base64Url_roundtrip (hby _ _))]
  rw [if_neg (by
    rw [timingSafeEqual_iff_eq]
    exact hdiff)]

/-- C9: Constant-time tag comparison — for equal-length inputs the comparison
loop examines every byte position (its iteration count equals the common
length, independent of the contents), and it returns `true` exactly when all
bytes are equal. -/
theorem C9_timingSafeEqual_constant_time (a b : List Nat) (hlen : a.length = b.length) :
    tseSteps a b = a.length ∧ (timingSafeEqual a b = true ↔ a = b) := by
  constructor
  · unfold tseSteps
    rw [if_neg (by omega)]
    exact tseLoop_snd_eq_length hlen 0
  · exact timingSafeEqual_iff_eq a b

/-! ## The decision handler (`handleResumeDecision`) and its environment -/

structure Requester where
  name : String
  email : String
  company : String
  reason : String
deriving DecidableEq, Repr

structure RequestRecord where
  id : String
  status : String
  createdAt : String
  decidedAt : Option String
  requester : Requester
deriving DecidableEq, Repr

structure Attachment where
  filename : String
  content : String
deriving DecidableEq, Repr

structure EmailMsg where
  toAddr : String
  bcc : Option String
  subject : String
  attachments : List Attachment
deriving DecidableEq, Repr

structure HtmlResponse where
  body : String
  status : Nat
deriving DecidableEq, Repr

/-- The `html(message, status)` helper from the source. -/
def htmlResp (message : String) (status : Nat) : HtmlResponse :=
  ⟨"<!doctype html><html><body style=\"font-family:system-ui;background:#0b0d12;color:#f3f4f6;padding:24px;\"><h2>"
    ++ message ++ "</h2></body></html>", status⟩

/-- Function `escapeHtml` from the source: the five sequential `replaceAll` calls are
a character-wise substitution (no replacement string contains a character a
later pass rewrites, and `&` is replaced first). -/
def escapeHtmlChar (c : Char) : List Char :=
  if c = '&' then "&amp;".data
  else if c = '<' then "&lt;".data
  else if c = '>' then "&gt;".data
  else if c = quoteChar then "&quot;".data
  else if c = apostropheChar then "&#039;".data
  else [c]

def escapeHtmlList : List Char → List Char
  | [] => []
  | c :: cs => escapeHtmlChar c ++ escapeHtmlList cs

def escapeHtml (value : String) : String := String.mk (escapeHtmlList value.data)

/-- The decision handler's world: configuration, the KV store, the clock, the
R2 bucket, and what the email transport will do. -/
structure DecisionEnv where
  APPROVAL_SIGNING_SECRET : String
  RESEND_API_KEY : String
  RESEND_FROM : String
  HUNTER_EMAIL : String
  RESUME_PDF_KEY : String
  store : String → Option RequestRecord
  now : Int
  nowIso : String
  r2BindingPresent : Bool
  r2Object : Option (List Nat)
  emailOk : Bool
  emailFailStatus : Nat
  emailFailBody : String

def requestKey (id : String) : String := "resume_request:" ++ id

def storePut (store : String → Option RequestRecord) (k : String) (r : RequestRecord) :
    String → Option RequestRecord :=
  fun q => if q = k then some r else store q

/-- JS string coercion of a property value, as in `requestKey(payload.id)`. -/
def jsToString (v : JVal) : String :=
  match v with
  | .str s => s
  | .num n => intToString n
  | .null => "null"

/-- JS truthiness of a property that may be absent. -/
def jsTruthy : Option JVal → Bool
  | none => false
  | some (JVal.str s) => decide (s ≠ "")
  | some (JVal.num n) => decide (n ≠ 0)
  | some JVal.null => false

/-- An exact rational value, the value space of the model's finite JS
numbers: an integer numerator over a natural denominator (every finite IEEE
double is such a rational). Every value the model constructs is in lowest
terms with a positive denominator. -/
structure JRat where
  num : Int
  den : Nat
deriving DecidableEq

/-- The reduced fraction `n / d`; the `g = 0` fallback only concerns
`d = 0`, which no construction in the model produces. -/
def jratMk (n : Int) (d : Nat) : JRat :=
  let g := Nat.gcd n.natAbs d
  if g = 0 then ⟨0, 1⟩ else ⟨n / (g : Int), d / g⟩

/-- A JS number as far as the handler's expiry comparison can observe it:
one of the two infinities, or a finite exact rational; `NaN` is represented
by `none` at the use sites. -/
inductive JNum where
  | posInf : JNum
  | negInf : JNum
  | fin : JRat → JNum
deriving DecidableEq

/-- Negation of a JS number, for a leading minus sign. -/
def jnumNeg : JNum → JNum
  | JNum.posInf => JNum.negInf
  | JNum.negInf => JNum.posInf
  | JNum.fin q => JNum.fin ⟨-q.num, q.den⟩

/-- JS whitespace for `ToNumber` string trimming: the `WhiteSpace` and
`LineTerminator` code points (TAB, LF, VT, FF, CR, SP, NBSP, OGHAM SP, the
Unicode space separators, LS, PS, NNBSP, MMSP, IDEOGRAPHIC SP, ZWNBSP). -/
def isStrWhiteSpace (c : Char) : Bool :=
  c.toNat = 9 || c.toNat = 10 || c.toNat = 11 || c.toNat = 12 || c.toNat = 13 ||
  c.toNat = 32 || c.toNat = 160 || c.toNat = 0x1680 ||
  (0x2000 ≤ c.toNat && c.toNat ≤ 0x200A) || c.toNat = 0x2028 || c.toNat = 0x2029 ||
  c.toNat = 0x202F || c.toNat = 0x205F || c.toNat = 0x3000 || c.toNat = 0xFEFF

/-- Left fold of a digit run in radix `r`; `none` once a character falls
outside the digit alphabet. -/
def radixValAux (r : Nat) (dv : Char → Option Nat) : List Char → Nat → Option Nat
  | [], acc => some acc
  | c :: cs, acc =>
    match dv c with
    | none => none
    | some d => radixValAux r dv cs (acc * r + d)

/-- The value of a digit run in radix `r`: `none` when the run is empty or
holds a character outside the digit alphabet. -/
def radixVal (r : Nat) (dv : Char → Option Nat) (cs : List Char) : Option Nat :=
  match cs with
  | [] => none
  | _ => radixValAux r dv cs 0

def decDigitVal (c : Char) : Option Nat :=
  if isDigitChar c then some (digitVal c) else none

def hexDigitVal (c : Char) : Option Nat :=
  if isDigitChar c then some (digitVal c)
  else if 97 ≤ c.toNat ∧ c.toNat ≤ 102 then some (c.toNat - 87)
  else if 65 ≤ c.toNat ∧ c.toNat ≤ 70 then some (c.toNat - 55)
  else none

def octDigitVal (c : Char) : Option Nat :=
  if 48 ≤ c.toNat ∧ c.toNat ≤ 55 then some (c.toNat - 48) else none

def binDigitVal (c : Char) : Option Nat :=
  if c = '0' then some 0 else if c = '1' then some 1 else none

/-- The `ExponentPart` of a decimal literal: nothing (exponent 0), or `e`
or `E` followed by an optionally signed non-empty digit run consuming the
rest of the input. -/
def parseExponentPart (cs : List Char) : Option Int :=
  match cs with
  | [] => some 0
  | c :: rest =>
    if c = 'e' ∨ c = 'E' then
      match rest with
      | '+' :: ds => (radixVal 10 decDigitVal ds).map Int.ofNat
      | '-' :: ds => (radixVal 10 decDigitVal ds).map (fun n => -(n : Int))
      | ds => (radixVal 10 decDigitVal ds).map Int.ofNat
    else none

/-- The exact mathematical value of a decimal literal with integer digits
`ip`, fraction digits `fp` and decimal exponent `e`, in lowest terms. -/
def decLiteralVal (ip fp : List Char) (e : Int) : JRat :=
  let n : Nat := natFromDigits ip * 10 ^ fp.length + natFromDigits fp
  if 0 ≤ e then jratMk ((n * 10 ^ e.toNat : Nat) : Int) (10 ^ fp.length)
  else jratMk (n : Int) (10 ^ fp.length * 10 ^ (-e).toNat)

/-- The `StrUnsignedDecimalLiteral` grammar of JS `ToNumber`: the literal
`Infinity`, or digits around an optional decimal point (at least one digit
on one side of the point) with an optional exponent part. -/
def parseStrUnsignedDecimal (cs : List Char) : Option JNum :=
  if cs = ['I', 'n', 'f', 'i', 'n', 'i', 't', 'y'] then some JNum.posInf
  else
    let ip := cs.takeWhile isDigitChar
    let rest1 := cs.dropWhile isDigitChar
    match rest1 with
    | '.' :: rest2 =>
      let fp := rest2.takeWhile isDigitChar
      let rest3 := rest2.dropWhile isDigitChar
      if ip = [] ∧ fp = [] then none
      else (parseExponentPart rest3).map (fun e => JNum.fin (decLiteralVal ip fp e))
    | _ =>
      if ip = [] then none
      else (parseExponentPart rest1).map (fun e => JNum.fin (decLiteralVal ip [] e))

/-- The `StrDecimalLiteral` grammar: an optional sign before an unsigned
decimal literal. -/
def parseStrDecimal (cs : List Char) : Option JNum :=
  match cs with
  | '+' :: rest => parseStrUnsignedDecimal rest
  | '-' :: rest => (parseStrUnsignedDecimal rest).map jnumNeg
  | _ => parseStrUnsignedDecimal cs

/-- The `StrNumericLiteral` grammar: a decimal literal, or an unsigned
binary, octal or hex integer literal (`0b`, `0o`, `0x`; these admit no
sign, no point and no exponent, and digit separators are not allowed in
string-to-number conversion). -/
def parseStrNumericLiteral (cs : List Char) : Option JNum :=
  match cs with
  | '0' :: c :: rest =>
    if c = 'x' ∨ c = 'X' then
      (radixVal 16 hexDigitVal rest).map (fun n => JNum.fin ⟨(n : Int), 1⟩)
    else if c = 'o' ∨ c = 'O' then
      (radixVal 8 octDigitVal rest).map (fun n => JNum.fin ⟨(n : Int), 1⟩)
    else if c = 'b' ∨ c = 'B' then
      (radixVal 2 binDigitVal rest).map (fun n => JNum.fin ⟨(n : Int), 1⟩)
    else parseStrDecimal ('0' :: c :: rest)
  | _ => parseStrDecimal cs

/-- The smallest magnitude that IEEE double round-to-nearest-even sends to
an infinity. -/
def doubleOverflowNum : Nat := 2 ^ 1024 - 2 ^ 970

/-- Rounding of an exact literal value into the double range: overflow to
the signed infinity, underflow (at most half the least subnormal) to zero.
In-range values are kept exact: an engine stores the nearest double
instead, shifting the product `exp * 1000` by under one part in `2 ^ 52`,
and such a shift can only cross an integer boundary when the product
magnitude exceeds `2 ^ 52` milliseconds, far beyond any reachable
`Date.now()`, so the handler's expiry comparison cannot tell the exact
value from the rounded one. -/
def roundToDoubleRange : JNum → JNum
  | JNum.fin q =>
    if (doubleOverflowNum : Int) * (q.den : Int) ≤ q.num then JNum.posInf
    else if q.num ≤ -((doubleOverflowNum : Int) * (q.den : Int)) then JNum.negInf
    else if q.num.natAbs * 2 ^ 1075 ≤ q.den then JNum.fin ⟨0, 1⟩
    else JNum.fin q
  | n => n

/-- JS `ToNumber` on a string: trim JS whitespace, an empty remainder is
`+0`, otherwise the `StrNumericLiteral` grammar decides (`none` is `NaN`)
and the value is rounded into the double range. -/
def jsStringToNumber (s : String) : Option JNum :=
  match (s.data.dropWhile isStrWhiteSpace).reverse.dropWhile isStrWhiteSpace |>.reverse with
  | [] => some (JNum.fin ⟨0, 1⟩)
  | cs => (parseStrNumericLiteral cs).map roundToDoubleRange

/-- The comparison `now > q * 1000` on an exact rational `q`, by
cross-multiplication with the positive denominator. -/
def jratNowGt (now : Int) (q : JRat) : Bool :=
  decide (now * (q.den : Int) > q.num * 1000)

/-- JS `ToNumber` of `payload.exp`: `undefined` is `NaN` (`none`), `null`
is `+0`, a number is itself, and a string coerces through the
numeric-literal grammar. -/
def jsToNumber : Option JVal → Option JNum
  | none => none
  | some (JVal.num n) => some (JNum.fin ⟨n, 1⟩)
  | some JVal.null => some (JNum.fin ⟨0, 1⟩)
  | some (JVal.str s) => jsStringToNumber s

/-- The expiry comparison of current time against `exp * 1000`: any
comparison with a NaN is false, `now` is never above positive infinity and
always above negative infinity, and a finite value compares exactly. -/
def expExpired (now : Int) (expVal : Option JVal) : Bool :=
  match jsToNumber expVal with
  | none => false
  | some JNum.posInf => false
  | some JNum.negInf => true
  | some (JNum.fin q) => jratNowGt now q

/-- The cross-multiplied comparison agrees with the rational comparison
`q * 1000 < now` whenever the denominator is positive (which holds for
every value the model constructs). -/
theorem jratNowGt_iff (now : Int) (q : JRat) (hq : q.den ≠ 0) :
    jratNowGt now q = true ↔ ((q.num : ℚ) / (q.den : ℚ)) * 1000 < (now : ℚ) := by
  unfold jratNowGt
  rw [decide_eq_true_eq]
  have hd : (0 : ℚ) < (q.den : ℚ) := by exact_mod_cast Nat.pos_of_ne_zero hq
  rw [div_mul_eq_mul_div, div_lt_iff₀ hd, gt_iff_lt]
  exact_mod_cast Iff.rfl

/-- Reduction preserves the value: the reduced fraction equals `n / d`
by cross-multiplication, and its denominator stays positive. -/
theorem jratMk_cross (n : Int) (d : Nat) (hd : d ≠ 0) :
    (jratMk n d).num * (d : Int) = n * ((jratMk n d).den : Int) ∧ (jratMk n d).den ≠ 0 := by
  have hg : Nat.gcd n.natAbs d ≠ 0 := fun h => hd (Nat.eq_zero_of_gcd_eq_zero_right h)
  have hnum : (jratMk n d).num = n / ((Nat.gcd n.natAbs d : Nat) : Int) := by
    unfold jratMk
    rw [if_neg hg]
  have hden : (jratMk n d).den = d / Nat.gcd n.natAbs d := by
    unfold jratMk
    rw [if_neg hg]
  have hgn : ((Nat.gcd n.natAbs d : Nat) : Int) ∣ n := by
    have h1 : ((Nat.gcd n.natAbs d : Nat) : Int).natAbs ∣ n.natAbs := by
      rw [Int.natAbs_ofNat]
      exact Nat.gcd_dvd_left _ _
    exact Int.natAbs_dvd_natAbs.mp h1
  have hgd : Nat.gcd n.natAbs d ∣ d := Nat.gcd_dvd_right _ _
  rw [hnum, hden]
  set g := Nat.gcd n.natAbs d with hgdef
  obtain ⟨m, hm⟩ := hgn
  obtain ⟨k, hk⟩ := hgd
  have hkpos : k ≠ 0 := by
    intro h0
    rw [h0, Nat.mul_zero] at hk
    exact hd hk
  constructor
  · rw [hm, hk]
    rw [Int.mul_ediv_cancel_left m (by exact_mod_cast hg)]
    rw [Nat.mul_div_cancel_left k (Nat.pos_of_ne_zero hg)]
    push_cast
    ring
  · rw [hk, Nat.mul_div_cancel_left k (Nat.pos_of_ne_zero hg)]
    exact hkpos

/-- Evaluation of the string-to-number coercion on representative inputs:
decimal fractions, bare-fraction and exponent forms, non-decimal integer
literals, signed infinities, whitespace and the empty string coerce as JS
does, while strings outside the numeric-literal grammar are NaN. -/
theorem jsStringToNumber_examples :
    jsStringToNumber "1.5" = some (JNum.fin ⟨3, 2⟩) ∧
    jsStringToNumber ".5" = some (JNum.fin ⟨1, 2⟩) ∧
    jsStringToNumber "1e3" = some (JNum.fin ⟨1000, 1⟩) ∧
    jsStringToNumber "0x10" = some (JNum.fin ⟨16, 1⟩) ∧
    jsStringToNumber "0o17" = some (JNum.fin ⟨15, 1⟩) ∧
    jsStringToNumber "0b101" = some (JNum.fin ⟨5, 1⟩) ∧
    jsStringToNumber "Infinity" = some JNum.posInf ∧
    jsStringToNumber "-Infinity" = some JNum.negInf ∧
    jsStringToNumber "" = some (JNum.fin ⟨0, 1⟩) ∧
    jsStringToNumber "  42  " = some (JNum.fin ⟨42, 1⟩) ∧
    jsStringToNumber "+3.25e-2" = some (JNum.fin ⟨13, 400⟩) ∧
    jsStringToNumber "1e400" = some JNum.posInf ∧
    jsStringToNumber "-1e400" = some JNum.negInf ∧
    jsStringToNumber "abc" = none ∧
    jsStringToNumber "1_0" = none ∧
    jsStringToNumber "+0x10" = none ∧
    jsStringToNumber "12px" = none ∧
    jsStringToNumber "1e" = none ∧
    jsStringToNumber "." = none := by decide

structure DecisionOutcome where
  response : HtmlResponse
  store : String → Option RequestRecord
  emailsAttempted : List EmailMsg

def assertEnvDecision (env : DecisionEnv) : Except String Unit :=
  if env.APPROVAL_SIGNING_SECRET = "" then
    Except.error "Missing required environment variable: APPROVAL_SIGNING_SECRET"
  else if env.RESEND_API_KEY = "" then
    Except.error "Missing required environment variable: RESEND_API_KEY"
  else if env.RESEND_FROM = "" then
    Except.error "Missing required environment variable: RESEND_FROM"
  else Except.ok ()

/-- Function `fetchResumeAttachmentFromR2` from the source; `.error` models a throw. -/
def fetchResumeAttachmentFromR2 (env : DecisionEnv) : Except String Attachment :=
  if env.r2BindingPresent = false then Except.error "Missing RESUME_FILES R2 binding."
  else
    let key := if env.RESUME_PDF_KEY = "" then "Hunter-Ramp-Resume.pdf" else env.RESUME_PDF_KEY
    match env.r2Object with
    | none => Except.error ("Resume PDF not found in R2 at key: " ++ key)
    | some bytes =>
      let fname :=
        match (splitCharList '/' key.data).getLastD [] with
        | [] => "Hunter-Ramp-Resume.pdf"
        | l => String.mk l
      Except.ok ⟨fname, String.mk (btoa bytes)⟩

/-- One attempt of `sendEmail` against the transport's behaviour recorded in
the environment; `.error` models the throw on a non-ok response. -/
def sendEmailDecision (env : DecisionEnv) : Except String Unit :=
  if env.emailOk then Except.ok ()
  else
    Except.error ("Email send failed: " ++ natToString env.emailFailStatus ++ " " ++
      env.emailFailBody)

/-- Lines 133–168 of the worker: the transition taken on the record found in
the store. -/
def decisionOnRecord (env : DecisionEnv) (payload : Payload) (record : RequestRecord) :
    Except (String × List EmailMsg) DecisionOutcome :=
  if record.status ≠ "pending" then
    .ok ⟨htmlResp ("Request already " ++ record.status ++ ".") 200, env.store, []⟩
  else if jsGet payload "action" = some (JVal.str "deny") then
    .ok ⟨htmlResp "Request denied. No email sent to requester." 200,
      storePut env.store (requestKey record.id)
        { record with status := "denied", decidedAt := some env.nowIso }, []⟩
  else
    match fetchResumeAttachmentFromR2 env with
    | .error e => .error (e, [])
    | .ok att =>
      let msg : EmailMsg := ⟨record.requester.email,
        if env.HUNTER_EMAIL = "" then none else some env.HUNTER_EMAIL,
        "Resume Request Approved - Hunter Ramp", [att]⟩
      match sendEmailDecision env with
      | .error e => .error (e, [msg])
      | .ok _ =>
        .ok ⟨htmlResp ("Approved. Resume sent to " ++
            escapeHtml record.requester.email ++ ".") 200,
          storePut env.store (requestKey record.id)
            { record with status := "approved", decidedAt := some env.nowIso },
          [msg]⟩

/-- Lines 127–130 of the worker: the store lookup. -/
def decisionLookup (env : DecisionEnv) (payload : Payload) :
    Except (String × List EmailMsg) DecisionOutcome :=
  match env.store (requestKey (jsToString ((jsGet payload "id").getD JVal.null))) with
  | none => .ok ⟨htmlResp "Request not found." 404, env.store, []⟩
  | some record => decisionOnRecord env payload record

/-- Lines 119–125 of the worker: well-formedness and expiry guards. -/
def decisionWithPayload (env : DecisionEnv) (payload : Payload) :
    Except (String × List EmailMsg) DecisionOutcome :=
  if jsTruthy (jsGet payload "id") = false then
    .ok ⟨htmlResp "Invalid or expired link." 400, env.store, []⟩
  else if jsTruthy (jsGet payload "action") = false then
    .ok ⟨htmlResp "Invalid or expired link." 400, env.store, []⟩
  else if expExpired env.now (jsGet payload "exp") then
    .ok ⟨htmlResp "This decision link has expired." 400, env.store, []⟩
  else decisionLookup env payload

/-- The body of `handleResumeDecision` inside its `try`: `.error` carries a
thrown message together with the emails already attempted before the throw. -/
def decisionCore (hm : List Nat → List Nat → List Nat) (env : DecisionEnv)
    (tokenQ : Option String) : Except (String × List EmailMsg) DecisionOutcome :=
  match assertEnvDecision env with
  | .error e => .error (e, [])
  | .ok _ =>
    if tokenQ.getD "" = "" then
      .ok ⟨htmlResp "Invalid link." 400, env.store, []⟩
    else
      match verifyToken hm (tokenQ.getD "") env.APPROVAL_SIGNING_SECRET with
      | .error e => .error (e, [])
      | .ok none => .ok ⟨htmlResp "Invalid or expired link." 400, env.store, []⟩
      | .ok (some payload) => decisionWithPayload env payload

/-- Function `handleResumeDecision` from the source: the `try/catch` boundary turns a
thrown message into the `Error: …` page with status 500, leaving the store
as it was. -/
def handleResumeDecision (hm : List Nat → List Nat → List Nat) (env : DecisionEnv)
    (tokenQ : Option String) : DecisionOutcome :=
  match decisionCore hm env tokenQ with
  | .ok out => out
  | .error (e, ems) =>
    ⟨htmlResp ("Error: " ++
        escapeHtml (if e = "" then "Unable to process decision" else e)) 500,
      env.store, ems⟩

/-! ### Reduction lemmas for the handler stages -/

def envReady (env : DecisionEnv) : Prop :=
  env.APPROVAL_SIGNING_SECRET ≠ "" ∧ env.RESEND_API_KEY ≠ "" ∧ env.RESEND_FROM ≠ ""

/-- The one email the approve path sends. -/
def approvalEmail (env : DecisionEnv) (record : RequestRecord) (att : Attachment) : EmailMsg :=
  ⟨record.requester.email,
    if env.HUNTER_EMAIL = "" then none else some env.HUNTER_EMAIL,
    "Resume Request Approved - Hunter Ramp", [att]⟩

theorem assertEnvDecision_ok {env : DecisionEnv} (h : envReady env) :
    assertEnvDecision env = Except.ok () := by
  unfold assertEnvDecision
  rw [if_neg h.1, if_neg h.2.1, if_neg h.2.2]

theorem decisionCore_verified (hm : List Nat → List Nat → List Nat) (env : DecisionEnv)
    {token : String} {payload : Payload} (henv : envReady env) (htok : token ≠ "")
    (hver : verifyToken hm token env.APPROVAL_SIGNING_SECRET = Except.ok (some payload)) :
    decisionCore hm env (some token) = decisionWithPayload env payload := by
  unfold decisionCore
  rw [assertEnvDecision_ok henv]
  rw [show (some token).getD "" = token from rfl]
  rw [if_neg htok, hver]

theorem decisionCore_thrown (hm : List Nat → List Nat → List Nat) (env : DecisionEnv)
    {token : String} {e : String} (henv : envReady env) (htok : token ≠ "")
    (hver : verifyToken hm token env.APPROVAL_SIGNING_SECRET = Except.error e) :
    decisionCore hm env (some token) = Except.error (e, []) := by
  unfold decisionCore
  rw [assertEnvDecision_ok henv]
  rw [show (some token).getD "" = token from rfl]
  rw [if_neg htok, hver]

theorem decisionWithPayload_run {env : DecisionEnv} {payload : Payload}
    (hid : jsTruthy (jsGet payload "id") = true)
    (hact : jsTruthy (jsGet payload "action") = true)
    (hexp : expExpired env.now (jsGet payload "exp") = false) :
    decisionWithPayload env payload = decisionLookup env payload := by
  unfold decisionWithPayload
  rw [hid, hact, hexp]
  rw [if_neg (by simp), if_neg (by simp), if_neg (by simp)]

theorem decisionWithPayload_expired {env : DecisionEnv} {payload : Payload}
    (hid : jsTruthy (jsGet payload "id") = true)
    (hact : jsTruthy (jsGet payload "action") = true)
    (hexp : expExpired env.now (jsGet payload "exp") = true) :
    decisionWithPayload env payload =
      Except.ok ⟨htmlResp "This decision link has expired." 400, env.store, []⟩ := by
  unfold decisionWithPayload
  rw [hid, hact, hexp]
  rw [if_neg (by simp), if_neg (by simp), if_pos rfl]

theorem decisionOnRecord_already {env : DecisionEnv} {payload : Payload}
    {record : RequestRecord} (h : record.status ≠ "pending") :
    decisionOnRecord env payload record =
      Except.ok ⟨htmlResp ("Request already " ++ record.status ++ ".") 200, env.store, []⟩ := by
  unfold decisionOnRecord
  rw [if_pos h]

theorem handleResumeDecision_ok {hm : List Nat → List Nat → List Nat} {env : DecisionEnv}
    {tokenQ : Option String} {out : DecisionOutcome}
    (h : decisionCore hm env tokenQ = Except.ok out) :
    handleResumeDecision hm env tokenQ = out := by
  unfold handleResumeDecision
  rw [h]

theorem sendEmailDecision_ok {env : DecisionEnv} (h : env.emailOk = true) :
    sendEmailDecision env = Except.ok () := by
  unfold sendEmailDecision
  rw [h]
  simp

theorem sendEmailDecision_fail {env : DecisionEnv} (h : env.emailOk = false) :
    sendEmailDecision env = Except.error ("Email send failed: " ++
      natToString env.emailFailStatus ++ " " ++ env.emailFailBody) := by
  unfold sendEmailDecision
  rw [h]
  simp

theorem decisionOnRecord_deny {env : DecisionEnv} {payload : Payload}
    {record : RequestRecord} (hp : record.status = "pending")
    (hdeny : jsGet payload "action" = some (JVal.str "deny")) :
    decisionOnRecord env payload record =
      Except.ok ⟨htmlResp "Request denied. No email sent to requester." 200,
        storePut env.store (requestKey record.id)
          { record with status := "denied", decidedAt := some env.nowIso }, []⟩ := by
  unfold decisionOnRecord
  rw [if_neg (by rw [hp]; simp), if_pos hdeny]

theorem decisionOnRecord_fetch_fail {env : DecisionEnv} {payload : Payload}
    {record : RequestRecord} (hp : record.status = "pending")
    (hnd : jsGet payload "action" ≠ some (JVal.str "deny")) {e : String}
    (hf : fetchResumeAttachmentFromR2 env = Except.error e) :
    decisionOnRecord env payload record = Except.error (e, []) := by
  unfold decisionOnRecord
  rw [if_neg (by rw [hp]; simp), if_neg hnd, hf]

theorem decisionOnRecord_email_fail {env : DecisionEnv} {payload : Payload}
    {record : RequestRecord} (hp : record.status = "pending")
    (hnd : jsGet payload "action" ≠ some (JVal.str "deny")) {att : Attachment}
    (hf : fetchResumeAttachmentFromR2 env = Except.ok att)
    (hmail : env.emailOk = false) :
    decisionOnRecord env payload record =
      Except.error ("Email send failed: " ++ natToString env.emailFailStatus ++ " " ++
        env.emailFailBody, [approvalEmail env record att]) := by
  unfold decisionOnRecord
  rw [if_neg (by rw [hp]; simp), if_neg hnd, hf]
  rw [sendEmailDecision_fail hmail]
  rfl

theorem decisionOnRecord_approved {env : DecisionEnv} {payload : Payload}
    {record : RequestRecord} (hp : record.status = "pending")
    (hnd : jsGet payload "action" ≠ some (JVal.str "deny")) {att : Attachment}
    (hf : fetchResumeAttachmentFromR2 env = Except.ok att)
    (hmail : env.emailOk = true) :
    decisionOnRecord env payload record =
      Except.ok ⟨htmlResp ("Approved. Resume sent to " ++
          escapeHtml record.requester.email ++ ".") 200,
        storePut env.store (requestKey record.id)
          { record with status := "approved", decidedAt := some env.nowIso },
        [approvalEmail env record att]⟩ := by
  unfold decisionOnRecord
  rw [if_neg (by rw [hp]; simp), if_neg hnd, hf]
  rw [sendEmailDecision_ok hmail]
  rfl

theorem decisionCore_store_cases (hm : List Nat → List Nat → List Nat) (env : DecisionEnv)
    (tokenQ : Option String) {out : DecisionOutcome}
    (h : decisionCore hm env tokenQ = Except.ok out) :
    out.store = env.store ∨
      ∃ key record rec2, env.store key = some record ∧ record.status = "pending" ∧
        out.store = storePut env.store (requestKey record.id) rec2 := by
  unfold decisionCore decisionWithPayload decisionLookup decisionOnRecord at h
  repeat' split at h
  all_goals first
    | (injection h with h2; subst h2; left; rfl)
    | (injection h with h2; subst h2; right;
       exact ⟨_, _, _, by assumption, by (apply not_not.mp; assumption), rfl⟩)
    | exact absurd h (by simp)

theorem handle_store_frame (hm : List Nat → List Nat → List Nat) (env : DecisionEnv)
    (tokenQ : Option String)
    (hwf : ∀ k2 r, env.store k2 = some r → requestKey r.id = k2)
    {k : String} {r : RequestRecord} (hk : env.store k = some r)
    (hnp : r.status ≠ "pending") :
    (handleResumeDecision hm env tokenQ).store k = env.store k := by
  unfold handleResumeDecision
  rcases hc : decisionCore hm env tokenQ with ⟨e, ems⟩ | out
  · rfl
  · show out.store k = env.store k
    rcases decisionCore_store_cases hm env tokenQ hc with hs | ⟨key, record, rec2, hkey, hpend, hput⟩
    · rw [hs]
    · rw [hput]
      unfold storePut
      have hkid : requestKey record.id = key := hwf key record hkey
      rw [hkid]
      have hkne : ¬ k = key := by
        intro he
        subst he
        rw [hk] at hkey
        injection hkey with h3
        subst h3
        exact hnp hpend
      rw [if_neg hkne]

/-- C3 (amended): once a record's status is no longer `pending` no operation
transitions it again — for a valid, unexpired token carrying its id the
handler replies `Request already <status>.` with the store untouched and no
email, and for an arbitrary request the record's key is never overwritten
(when every stored record sits at its own key); an expired token, however,
is answered with the expiry message before the record is consulted. -/
theorem C3_terminal_state_idempotent (hm : List Nat → List Nat → List Nat)
    (env : DecisionEnv) (token : String) (payload : Payload) (idStr : String)
    (rec : RequestRecord)
    (henv : envReady env) (htok : token ≠ "")
    (hver : verifyToken hm token env.APPROVAL_SIGNING_SECRET = Except.ok (some payload))
    (hid : jsTruthy (jsGet payload "id") = true)
    (hact : jsTruthy (jsGet payload "action") = true)
    (hexp : expExpired env.now (jsGet payload "exp") = false)
    (hidstr : jsToString ((jsGet payload "id").getD JVal.null) = idStr)
    (hk : env.store (requestKey idStr) = some rec)
    (hnp : rec.status ≠ "pending")
    (hwf : ∀ k2 r, env.store k2 = some r → requestKey r.id = k2) :
    handleResumeDecision hm env (some token) =
      ⟨htmlResp ("Request already " ++ rec.status ++ ".") 200, env.store, []⟩ ∧
    (∀ tokenQ2, (handleResumeDecision hm env tokenQ2).store (requestKey idStr) =
      env.store (requestKey idStr)) := by
  constructor
  · apply handleResumeDecision_ok
    rw [decisionCore_verified hm env henv htok hver, decisionWithPayload_run hid hact hexp]
    unfold decisionLookup
    rw [hidstr, hk]
    exact decisionOnRecord_already hnp
  · intro tq
    exact handle_store_frame hm env tq hwf hk hnp

/-- C6: a correctly-signed, well-formed token whose `exp` lies in the past
(its coercion is a finite value `e` with `now > e * 1000`, stated by
cross-multiplication as in `jratNowGt`) makes the handler report
`This decision link has expired.` with status 400, mutating nothing and
sending nothing. -/
theorem C6_expired_reports_and_preserves (hm : List Nat → List Nat → List Nat)
    (env : DecisionEnv) (token : String) (payload : Payload) (e : JRat)
    (henv : envReady env) (htok : token ≠ "")
    (hver : verifyToken hm token env.APPROVAL_SIGNING_SECRET = Except.ok (some payload))
    (hid : jsTruthy (jsGet payload "id") = true)
    (hact : jsTruthy (jsGet payload "action") = true)
    (hexp : jsToNumber (jsGet payload "exp") = some (JNum.fin e))
    (hpast : jratNowGt env.now e = true) :
    handleResumeDecision hm env (some token) =
      ⟨htmlResp "This decision link has expired." 400, env.store, []⟩ := by
  apply handleResumeDecision_ok
  rw [decisionCore_verified hm env henv htok hver]
  rw [decisionWithPayload_expired hid hact (by
    unfold expExpired
    rw [hexp]
    exact hpast)]

/-- C7 (amended): a correctly-signed token that passes the expiry check and
whose id has no record in the store is answered `Request not found.` with
status 404 and no mutation; an expired token is answered with the expiry
message first, even when the id is unknown. -/
theorem C7_unknown_id_not_found (hm : List Nat → List Nat → List Nat)
    (env : DecisionEnv) (token : String) (payload : Payload)
    (henv : envReady env) (htok : token ≠ "")
    (hver : verifyToken hm token env.APPROVAL_SIGNING_SECRET = Except.ok (some payload))
    (hid : jsTruthy (jsGet payload "id") = true)
    (hact : jsTruthy (jsGet payload "action") = true)
    (hexp : expExpired env.now (jsGet payload "exp") = false)
    (habs : env.store (requestKey (jsToString ((jsGet payload "id").getD JVal.null))) =
      none) :
    handleResumeDecision hm env (some token) =
      ⟨htmlResp "Request not found." 404, env.store, []⟩ := by
  apply handleResumeDecision_ok
  rw [decisionCore_verified hm env henv htok hver, decisionWithPayload_run hid hact hexp]
  unfold decisionLookup
  rw [habs]

/-- C8: on a pending record, a valid unexpired deny token flips the record to
`denied` with `decidedAt` set, persists it under the record's key, and sends
no email; the deny branch contains no email send at all. -/
theorem C8_deny_persists_without_email (hm : List Nat → List Nat → List Nat)
    (env : DecisionEnv) (token : String) (payload : Payload) (rec : RequestRecord)
    (henv : envReady env) (htok : token ≠ "")
    (hver : verifyToken hm token env.APPROVAL_SIGNING_SECRET = Except.ok (some payload))
    (hid : jsTruthy (jsGet payload "id") = true)
    (hact : jsTruthy (jsGet payload "action") = true)
    (hexp : expExpired env.now (jsGet payload "exp") = false)
    (hk : env.store (requestKey (jsToString ((jsGet payload "id").getD JVal.null))) =
      some rec)
    (hp : rec.status = "pending")
    (hdeny : jsGet payload "action" = some (JVal.str "deny")) :
    handleResumeDecision hm env (some token) =
      ⟨htmlResp "Request denied. No email sent to requester." 200,
        storePut env.store (requestKey rec.id)
          { rec with status := "denied", decidedAt := some env.nowIso }, []⟩ := by
  apply handleResumeDecision_ok
  rw [decisionCore_verified hm env henv htok hver, decisionWithPayload_run hid hact hexp]
  unfold decisionLookup
  rw [hk]
  exact decisionOnRecord_deny hp hdeny

theorem fetchError_ne_empty {env : DecisionEnv} {e : String}
    (h : fetchResumeAttachmentFromR2 env = Except.error e) : e ≠ "" := by
  unfold fetchResumeAttachmentFromR2 at h
  repeat' split at h
  all_goals first
    | (injection h with h2; subst h2; decide)
    | (injection h with h2; subst h2;
       intro contra;
       have hcl := congrArg String.length contra;
       rw [String.length_append] at hcl;
       have hp : 0 < ("Resume PDF not found in R2 at key: " : String).length := by decide;
       have h0 : ("" : String).length = 0 := rfl;
       rw [h0] at hcl;
       omega)
    | exact absurd h (by simp)

/-- C4: on a pending record with a valid, unexpired non-deny (approve) token,
the attachment fetch and the email send happen strictly before the record is
persisted — if the fetch throws the handler answers with an error page and
the store is untouched with no email attempted; if the send fails the
handler answers 500, the store is untouched and exactly the one email was
attempted; only when both succeed is the record persisted as `approved`. -/
theorem C4_approve_error_leaves_pending (hm : List Nat → List Nat → List Nat)
    (env : DecisionEnv) (token : String) (payload : Payload) (rec : RequestRecord)
    (henv : envReady env) (htok : token ≠ "")
    (hver : verifyToken hm token env.APPROVAL_SIGNING_SECRET = Except.ok (some payload))
    (hid : jsTruthy (jsGet payload "id") = true)
    (hact : jsTruthy (jsGet payload "action") = true)
    (hexp : expExpired env.now (jsGet payload "exp") = false)
    (hk : env.store (requestKey (jsToString ((jsGet payload "id").getD JVal.null))) =
      some rec)
    (hp : rec.status = "pending")
    (hnd : jsGet payload "action" ≠ some (JVal.str "deny")) :
    (∀ e, fetchResumeAttachmentFromR2 env = Except.error e →
      handleResumeDecision hm env (some token) =
        ⟨htmlResp ("Error: " ++ escapeHtml e) 500, env.store, []⟩) ∧
    (∀ att, fetchResumeAttachmentFromR2 env = Except.ok att → env.emailOk = false →
      (handleResumeDecision hm env (some token)).response.status = 500 ∧
      (handleResumeDecision hm env (some token)).store = env.store ∧
      (handleResumeDecision hm env (some token)).emailsAttempted =
        [approvalEmail env rec att]) ∧
    (∀ att, fetchResumeAttachmentFromR2 env = Except.ok att → env.emailOk = true →
      handleResumeDecision hm env (some token) =
        ⟨htmlResp ("Approved. Resume sent to " ++ escapeHtml rec.requester.email ++ ".") 200,
          storePut env.store (requestKey rec.id)
            { rec with status := "approved", decidedAt := some env.nowIso },
          [approvalEmail env rec att]⟩) := by
  have hcore : decisionCore hm env (some token) = decisionLookup env payload := by
    rw [decisionCore_verified hm env henv htok hver, decisionWithPayload_run hid hact hexp]
  refine ⟨?_, ?_, ?_⟩
  · intro e hf
    have hc2 : decisionCore hm env (some token) = Except.error (e, []) := by
      rw [hcore]
      unfold decisionLookup
      rw [hk]
      exact decisionOnRecord_fetch_fail hp hnd hf
    unfold handleResumeDecision
    rw [hc2]
    show (⟨htmlResp ("Error: " ++ escapeHtml
      (if e = "" then "Unable to process decision" else e)) 500,
      env.store, []⟩ : DecisionOutcome) = _
    rw [if_neg (fetchError_ne_empty hf)]
  · intro att hf hmail
    have hc2 : decisionCore hm env (some token) =
        Except.error ("Email send failed: " ++ natToString env.emailFailStatus ++ " " ++
          env.emailFailBody, [approvalEmail env rec att]) := by
      rw [hcore]
      unfold decisionLookup
      rw [hk]
      exact decisionOnRecord_email_fail hp hnd hf hmail
    unfold handleResumeDecision
    rw [hc2]
    exact ⟨rfl, rfl, rfl⟩
  · intro att hf hmail
    apply handleResumeDecision_ok
    rw [hcore]
    unfold decisionLookup
    rw [hk]
    exact decisionOnRecord_approved hp hnd hf hmail

theorem decisionLookup_not400 (env : DecisionEnv) (payload : Payload)
    {out : DecisionOutcome} (h : decisionLookup env payload = Except.ok out) :
    out.response.status ≠ 400 := by
  unfold decisionLookup decisionOnRecord at h
  repeat' split at h
  all_goals first
    | (injection h with h2; subst h2; simp [htmlResp])
    | exact absurd h (by simp)

/-- C10 (amended): a verified token carrying truthy `id` and `action` whose
`exp` coerces to `NaN` (it is absent, or a string outside the JS
numeric-literal grammar) is never reported as expired — `Date.now() > NaN`
is false — and processing reaches the record lookup; an `exp` of `null` or
of a numeric string such as `"1.5"` coerces to a number instead and can be
reported expired. -/
theorem C10_nan_exp_never_expired (hm : List Nat → List Nat → List Nat)
    (env : DecisionEnv) (token : String) (payload : Payload)
    (henv : envReady env) (htok : token ≠ "")
    (hver : verifyToken hm token env.APPROVAL_SIGNING_SECRET = Except.ok (some payload))
    (hid : jsTruthy (jsGet payload "id") = true)
    (hact : jsTruthy (jsGet payload "action") = true)
    (hnan : jsToNumber (jsGet payload "exp") = none) :
    (handleResumeDecision hm env (some token)).response ≠
      htmlResp "This decision link has expired." 400 ∧
    (env.store (requestKey (jsToString ((jsGet payload "id").getD JVal.null))) = none →
      handleResumeDecision hm env (some token) =
        ⟨htmlResp "Request not found." 404, env.store, []⟩) := by
  have hexp : expExpired env.now (jsGet payload "exp") = false := by
    unfold expExpired
    rw [hnan]
  have hcore : decisionCore hm env (some token) = decisionLookup env payload := by
    rw [decisionCore_verified hm env henv htok hver, decisionWithPayload_run hid hact hexp]
  constructor
  · unfold handleResumeDecision
    rw [hcore]
    rcases hl : decisionLookup env payload with ⟨e, ems⟩ | out
    · intro contra
      have : (500 : Nat) = 400 := congrArg HtmlResponse.status contra
      omega
    · have hst := decisionLookup_not400 env payload hl
      intro contra
      have contra2 : out.response = htmlResp "This decision link has expired." 400 := contra
      exact hst (by rw [contra2]; rfl)
  · intro habs
    apply handleResumeDecision_ok
    rw [hcore]
    unfold decisionLookup
    rw [habs]

/-- C5 (amended): token decoding returns invalid (`null`) when the token does
not split into exactly two `.`-separated segments or when the recomputed tag
differs from the provided one; a segment that is not valid base64url instead
makes decoding throw, which the handler's boundary catch converts into an
`Error: …` page with status 500 and no store mutation (the handler never
crashes); well-formedness of the decoded claims is not checked by decoding
itself. -/
theorem C5_decode_rejections (hm : List Nat → List Nat → List Nat) :
    (∀ token secret : String, (splitOnDot token).length ≠ 2 →
      verifyToken hm token secret = Except.ok none) ∧
    (∀ (token secret p0 p1 : String) (pb sig : List Nat),
      splitOnDot token = [p0, p1] → base64UrlDecode p0 = some pb →
      base64UrlDecode p1 = some sig → sig ≠ hm pb (toUtf8 secret) →
      verifyToken hm token secret = Except.ok none) ∧
    (∀ (env : DecisionEnv) (token e : String), envReady env → token ≠ "" →
      verifyToken hm token env.APPROVAL_SIGNING_SECRET = Except.error e → e ≠ "" →
      handleResumeDecision hm env (some token) =
        ⟨htmlResp ("Error: " ++ escapeHtml e) 500, env.store, []⟩) := by
  refine ⟨?_, ?_, ?_⟩
  · intro token secret hlen
    unfold verifyToken
    rcases hsp : splitOnDot token with _ | ⟨a, _ | ⟨b, _ | ⟨c, t⟩⟩⟩
    · rfl
    · rfl
    · rw [hsp] at hlen
      simp at hlen
    · rfl
  · intro token secret p0 p1 pb sig hsp h0 h1 hneq
    rw [verifyToken_eval hm hsp h0 h1]
    rw [if_neg (by
      rw [timingSafeEqual_iff_eq]
      exact hneq)]
  · intro env token e henv htok hver hne
    unfold handleResumeDecision
    rw [decisionCore_thrown hm env henv htok hver]
    show (⟨htmlResp ("Error: " ++ escapeHtml
      (if e = "" then "Unable to process decision" else e)) 500,
      env.store, []⟩ : DecisionOutcome) = _
    rw [if_neg hne]

/-! ## Concrete instances for witnesses and counterexamples -/

/-- A concrete byte-valued tag function standing in for the platform HMAC in
concrete runs. -/
def hmacToy : List Nat → List Nat → List Nat :=
  fun m k => [(m.length + 7 * k.length) % 256, 3]

theorem hmacToy_lt256 : ∀ m k, ∀ b ∈ hmacToy m k, b < 256 := by
  intro m k b hb
  simp only [hmacToy, List.mem_cons, List.not_mem_nil, or_false] at hb
  rcases hb with rfl | rfl
  · exact Nat.mod_lt _ (by omega)
  · omega

def sampleRequester : Requester := ⟨"Jo", "jo@x.com", "Acme", "hiring"⟩

def pendingRecord : RequestRecord := ⟨"x", "pending", "2026-01-01", none, sampleRequester⟩

def approvedRecord : RequestRecord := ⟨"x", "approved", "2026-01-01", none, sampleRequester⟩

/-- A store holding exactly one record, at its own key. -/
def storeOne (r : RequestRecord) : String → Option RequestRecord :=
  fun q => if q = requestKey r.id then some r else none

theorem storeOne_wf (r : RequestRecord) :
    ∀ k2 r2, storeOne r k2 = some r2 → requestKey r2.id = k2 := by
  intro k2 r2 h
  unfold storeOne at h
  by_cases hq : k2 = requestKey r.id
  · rw [if_pos hq] at h
    injection h with h2
    subst h2
    exact hq.symm
  · rw [if_neg hq] at h
    cases h

def baseEnv : DecisionEnv :=
  { APPROVAL_SIGNING_SECRET := "s"
    RESEND_API_KEY := "k"
    RESEND_FROM := "f@x.com"
    HUNTER_EMAIL := "h@x.com"
    RESUME_PDF_KEY := ""
    store := fun _ => none
    now := 2000000
    nowIso := "2026-01-02"
    r2BindingPresent := true
    r2Object := some [37, 80, 68, 70]
    emailOk := true
    emailFailStatus := 500
    emailFailBody := "bad" }

def freshClaims : Claims := ⟨"x", "approve", 9999999999⟩

def staleClaims : Claims := ⟨"x", "approve", 1⟩

def denyClaims : Claims := ⟨"x", "deny", 9999999999⟩

def freshToken : String := signToken hmacToy freshClaims "s"

def staleToken : String := signToken hmacToy staleClaims "s"

def denyToken : String := signToken hmacToy denyClaims "s"

def decidedEnv : DecisionEnv := { baseEnv with store := storeOne approvedRecord }

def pendingEnv : DecisionEnv := { baseEnv with store := storeOne pendingRecord }

/-- The claims JSON of a crafted token whose `exp` field is JSON `null`. -/
def nullExpJson : String := "\x7b\"id\":\"x\",\"action\":\"approve\",\"exp\":null\x7d"

/-- The claims JSON of a crafted token with no `exp` field at all. -/
def noExpJson : String := "\x7b\"id\":\"x\",\"action\":\"approve\"\x7d"

/-- The claims JSON of a crafted token whose `exp` is the numeric string
`"1.5"`. -/
def fracExpJson : String := "\x7b\"id\":\"x\",\"action\":\"approve\",\"exp\":\"1.5\"\x7d"

/-- A correctly-signed token over an arbitrary claims-JSON string. -/
def craftToken (json secret : String) : String :=
  base64UrlEncode (toUtf8 json) ++ "." ++
    base64UrlEncode (hmacToy (toUtf8 json) (toUtf8 secret))

deriving instance DecidableEq for Except

instance (env : DecisionEnv) : Decidable (envReady env) := by
  unfold envReady
  infer_instance

/-! ## Witnesses and counterexamples on concrete inputs -/

theorem C1_witness :
    verifyToken hmacToy (signToken hmacToy freshClaims "s") "s" =
      Except.ok (some (claimsFields freshClaims)) :=
  C1_sign_verify_roundtrip hmacToy hmacToy_lt256 freshClaims "s"

theorem C2_witness :
    verifyToken hmacToy (signToken hmacToy freshClaims "a") "bb" = Except.ok none :=
  C2_cross_secret_invalid hmacToy hmacToy_lt256 freshClaims "a" "bb" (by decide)

theorem C9_witness :
    tseSteps [1, 2] [1, 3] = [1, 2].length ∧
      (timingSafeEqual [1, 2] [1, 3] = true ↔ [1, 2] = [1, 3]) :=
  C9_timingSafeEqual_constant_time [1, 2] [1, 3] (by decide)

theorem C3_witness :
    handleResumeDecision hmacToy decidedEnv (some freshToken) =
      ⟨htmlResp ("Request already " ++ approvedRecord.status ++ ".") 200,
        decidedEnv.store, []⟩ :=
  (C3_terminal_state_idempotent hmacToy decidedEnv freshToken (claimsFields freshClaims)
    "x" approvedRecord (by decide) (by decide) (by decide) (by decide) (by decide)
    (by decide) (by decide) (by decide) (by decide)
    (storeOne_wf approvedRecord)).1

theorem C6_witness :
    handleResumeDecision hmacToy decidedEnv (some staleToken) =
      ⟨htmlResp "This decision link has expired." 400, decidedEnv.store, []⟩ :=
  C6_expired_reports_and_preserves hmacToy decidedEnv staleToken
    (claimsFields staleClaims) ⟨1, 1⟩ (by decide) (by decide) (by decide) (by decide)
    (by decide) (by decide) (by decide)

theorem C7_witness :
    handleResumeDecision hmacToy baseEnv (some freshToken) =
      ⟨htmlResp "Request not found." 404, baseEnv.store, []⟩ :=
  C7_unknown_id_not_found hmacToy baseEnv freshToken (claimsFields freshClaims)
    (by decide) (by decide) (by decide) (by decide) (by decide) (by decide) (by decide)

theorem C8_witness :
    handleResumeDecision hmacToy pendingEnv (some denyToken) =
      ⟨htmlResp "Request denied. No email sent to requester." 200,
        storePut pendingEnv.store (requestKey pendingRecord.id)
          { pendingRecord with status := "denied", decidedAt := some pendingEnv.nowIso },
        []⟩ :=
  C8_deny_persists_without_email hmacToy pendingEnv denyToken (claimsFields denyClaims)
    pendingRecord (by decide) (by decide) (by decide) (by decide) (by decide) (by decide)
    (by decide) (by decide) (by decide)

theorem C4_witness :
    handleResumeDecision hmacToy pendingEnv (some freshToken) =
      ⟨htmlResp ("Approved. Resume sent to " ++
          escapeHtml pendingRecord.requester.email ++ ".") 200,
        storePut pendingEnv.store (requestKey pendingRecord.id)
          { pendingRecord with status := "approved", decidedAt := some pendingEnv.nowIso },
        [approvalEmail pendingEnv pendingRecord
          ⟨"Hunter-Ramp-Resume.pdf", "JVBERg=="⟩]⟩ :=
  (C4_approve_error_leaves_pending hmacToy pendingEnv freshToken (claimsFields freshClaims)
    pendingRecord (by decide) (by decide) (by decide) (by decide) (by decide) (by decide)
    (by decide) (by decide) (by decide)).2.2
    ⟨"Hunter-Ramp-Resume.pdf", "JVBERg=="⟩ (by decide) (by decide)

theorem C10_witness :
    handleResumeDecision hmacToy baseEnv (some (craftToken noExpJson "s")) =
      ⟨htmlResp "Request not found." 404, baseEnv.store, []⟩ :=
  (C10_nan_exp_never_expired hmacToy baseEnv (craftToken noExpJson "s")
    [("id", JVal.str "x"), ("action", JVal.str "approve")]
    (by decide) (by decide) (by decide) (by decide) (by decide) (by decide)).2 (by decide)

theorem C5_witness :
    verifyToken hmacToy "abc" "s" = Except.ok none ∧
    verifyToken hmacToy (base64UrlEncode [1] ++ "." ++ base64UrlEncode [9]) "s" =
      Except.ok none ∧
    handleResumeDecision hmacToy baseEnv (some "!.!") =
      ⟨htmlResp ("Error: " ++ escapeHtml "InvalidCharacterError") 500,
        baseEnv.store, []⟩ := by
  refine ⟨?_, ?_, ?_⟩
  · exact (C5_decode_rejections hmacToy).1 "abc" "s" (by decide)
  · exact (C5_decode_rejections hmacToy).2.1
      (base64UrlEncode [1] ++ "." ++ base64UrlEncode [9]) "s"
      (base64UrlEncode [1]) (base64UrlEncode [9]) [1] [9]
      (by decide) (by decide) (by decide) (by decide)
  · exact (C5_decode_rejections hmacToy).2.2 baseEnv "!.!" "InvalidCharacterError"
      (by decide) (by decide) (by decide) (by decide)

theorem C5_counterexample :
    (splitOnDot "!.!").length = 2 ∧
    base64UrlDecode "!" = none ∧
    verifyToken hmacToy "!.!" "s" = Except.error "InvalidCharacterError" ∧
    verifyToken hmacToy "!.!" "s" ≠ Except.ok none := by decide

theorem C3_counterexample :
    verifyToken hmacToy staleToken decidedEnv.APPROVAL_SIGNING_SECRET =
      Except.ok (some (claimsFields staleClaims)) ∧
    decidedEnv.store (requestKey "x") = some approvedRecord ∧
    approvedRecord.status = "approved" ∧
    (handleResumeDecision hmacToy decidedEnv (some staleToken)).response =
      htmlResp "This decision link has expired." 400 ∧
    (handleResumeDecision hmacToy decidedEnv (some staleToken)).response ≠
      htmlResp ("Request already " ++ approvedRecord.status ++ ".") 200 := by decide

theorem C7_counterexample :
    verifyToken hmacToy staleToken baseEnv.APPROVAL_SIGNING_SECRET =
      Except.ok (some (claimsFields staleClaims)) ∧
    baseEnv.store (requestKey "x") = none ∧
    (handleResumeDecision hmacToy baseEnv (some staleToken)).response =
      htmlResp "This decision link has expired." 400 ∧
    (handleResumeDecision hmacToy baseEnv (some staleToken)).response ≠
      htmlResp "Request not found." 404 := by decide

theorem C10_counterexample :
    verifyToken hmacToy (craftToken nullExpJson "s") baseEnv.APPROVAL_SIGNING_SECRET =
      Except.ok (some [("id", JVal.str "x"), ("action", JVal.str "approve"),
        ("exp", JVal.null)]) ∧
    jsTruthy (jsGet [("id", JVal.str "x"), ("action", JVal.str "approve"),
      ("exp", JVal.null)] "id") = true ∧
    jsTruthy (jsGet [("id", JVal.str "x"), ("action", JVal.str "approve"),
      ("exp", JVal.null)] "action") = true ∧
    jsGet [("id", JVal.str "x"), ("action", JVal.str "approve"),
      ("exp", JVal.null)] "exp" = some JVal.null ∧
    (handleResumeDecision hmacToy baseEnv (some (craftToken nullExpJson "s"))).response =
      htmlResp "This decision link has expired." 400 := by decide

/-- A correctly-signed token whose `exp` is the string `"1.5"` coerces to
the number three halves and is reported expired at `now = 2000000`
milliseconds, matching the worker's evaluation of
`Date.now() > payload.exp * 1000` where `"1.5" * 1000` is `1500`. -/
theorem fracExp_token_reported_expired :
    verifyToken hmacToy (craftToken fracExpJson "s") baseEnv.APPROVAL_SIGNING_SECRET =
      Except.ok (some [("id", JVal.str "x"), ("action", JVal.str "approve"),
        ("exp", JVal.str "1.5")]) ∧
    jsToNumber (some (JVal.str "1.5")) = some (JNum.fin ⟨3, 2⟩) ∧
    (handleResumeDecision hmacToy baseEnv (some (craftToken fracExpJson "s"))).response =
      htmlResp "This decision link has expired." 400 := by decide
